import Mathlib

/-!
Verification development for the FlowDNS DHCPv4 / DNS core.

This file gives a shallow embedding, in Lean, of the parts of the FlowDNS
source that the specification claims talk about:

* the DHCPv4 packet codec (src/dhcp/packet.rs),
* the lease store queries (src/dhcp/lease_manager_queries.rs),
* the lease manager (src/dhcp/lease_manager.rs),
* the DHCPv4 server handlers (src/dhcp/server.rs),
* the DHCP-to-DNS update pipeline (src/dns/dynamic_updates.rs and
  src/dns/simple_zone_manager.rs).

Machine integers are modelled as Nat with explicit bounds where overflow
matters; byte strings are lists of Nat (each byte < 256); SQL-backed state
is an explicit Store record threaded through the operations; the database
NOW() is an explicit `now ` parameter in seconds; fallible Rust code
returns Option or Except.
-/

namespace FlowDns

/-- Magic cookie bytes 63 82 53 63 (decimal 99 130 83 99). -/
def magicCookie : List Nat := [99, 130, 83, 99]

/-- Big-endian combination of bytes, as in u32::from_be_bytes and friends. -/
def beCombine (l : List Nat) : Nat :=
  l.foldl (fun acc b => acc * 256 + b) 0

/-- Big-endian 4-byte encoding of a u32 (to_be_bytes / Ipv4Addr octets). -/
def be32 (n : Nat) : List Nat :=
  [n / 16777216 % 256, n / 65536 % 256, n / 256 % 256, n % 256]

/-- Big-endian 2-byte encoding of a u16. -/
def be16 (n : Nat) : List Nat :=
  [n / 256 % 256, n % 256]

/-- A DHCP option: single byte code plus raw data bytes
(struct DhcpOption in src/dhcp/packet.rs). -/
structure DhcpOption where
  code : Nat
  data : List Nat
deriving DecidableEq, Repr

/-- The DHCPv4 packet structure (struct DhcpPacket in src/dhcp/packet.rs).
Addresses and multi-byte scalars are Nat values; chaddr, sname and file
are kept as raw byte lists of lengths 16, 64 and 128. -/
structure DhcpPacket where
  op : Nat
  htype : Nat
  hlen : Nat
  hops : Nat
  xid : Nat
  secs : Nat
  flags : Nat
  ciaddr : Nat
  yiaddr : Nat
  siaddr : Nat
  giaddr : Nat
  chaddr : List Nat
  sname : List Nat
  file : List Nat
  options : List DhcpOption
deriving DecidableEq, Repr

/-- DhcpPacket::new(): the all-default packet. -/
def DhcpPacket.new : DhcpPacket :=
  { op := 1, htype := 1, hlen := 6, hops := 0, xid := 0, secs := 0, flags := 0
    ciaddr := 0, yiaddr := 0, siaddr := 0, giaddr := 0
    chaddr := List.replicate 16 0
    sname := List.replicate 64 0
    file := List.replicate 128 0
    options := [] }

/-- Worker for parse_options, structurally recursive on a fuel bound for
the number of loop steps. Each loop step of the Rust code advances the
index by at least one, so fuel equal to the byte count is always enough. -/
def parseOptionsGo : Nat → List Nat → List DhcpOption
  | 0, _ => []
  | _, [] => []
  | fuel + 1, c :: rest =>
    if c = 255 then []
    else if c = 0 then parseOptionsGo fuel rest
    else
      match rest with
      | [] => []
      | l :: rest2 =>
        if rest2.length < l then []
        else ⟨c, rest2.take l⟩ :: parseOptionsGo fuel (rest2.drop l)

/-- DhcpPacket::parse_options: the option scanning loop. Code 255
terminates, code 0 is skipped, a missing or truncated length or body
terminates with the options collected so far. The Rust function returns
Result but has no error path, so the embedding returns the list directly. -/
def parseOptions (data : List Nat) : List DhcpOption :=
  parseOptionsGo data.length data

/-- Checked slice data[a..b]: none models an out-of-bounds panic. -/
def sliceChk (data : List Nat) (a b : Nat) : Option (List Nat) :=
  if b ≤ data.length ∧ a ≤ b then some ((data.drop a).take (b - a)) else none

/-- Checked big-endian read of n bytes starting at index i
(models u32::from_be_bytes([data[i], ...]) with the individual
index panics made explicit). -/
def readBE (data : List Nat) (i n : Nat) : Option Nat :=
  (sliceChk data i (i + n)).map beCombine

/-- DhcpPacket::parse. The outer Option layer models panic freedom: a
result of none would mean an out-of-bounds access; the inner Except is
the Result returned by the Rust function. -/
def parse (data : List Nat) : Option (Except String DhcpPacket) :=
  if data.length < 236 then
    some (Except.error "DHCP packet too short")
  else do
    let op ← data[0]?
    let htype ← data[1]?
    let hlen ← data[2]?
    let hops ← data[3]?
    let xid ← readBE data 4 4
    let secs ← readBE data 8 2
    let flags ← readBE data 10 2
    let ciaddr ← readBE data 12 4
    let yiaddr ← readBE data 16 4
    let siaddr ← readBE data 20 4
    let giaddr ← readBE data 24 4
    let chaddr ← sliceChk data 28 44
    let sname ← sliceChk data 44 108
    let file ← sliceChk data 108 236
    let options :=
      if 240 < data.length ∧ (data.drop 236).take 4 = magicCookie then
        parseOptions (data.drop 240)
      else []
    some (Except.ok
      { op := op, htype := htype, hlen := hlen, hops := hops, xid := xid
        secs := secs, flags := flags
        ciaddr := ciaddr, yiaddr := yiaddr, siaddr := siaddr, giaddr := giaddr
        chaddr := chaddr, sname := sname, file := file, options := options })

/-- Serialization of the option list: code byte, length byte (len as u8,
hence mod 256), then the data bytes, in insertion order. -/
def serializeOptions : List DhcpOption → List Nat
  | [] => []
  | o :: rest => o.code :: (o.data.length % 256) :: (o.data ++ serializeOptions rest)

/-- DhcpPacket::to_bytes: fixed header, magic cookie, options, 255
terminator, zero padding up to at least 300 bytes. -/
def toBytes (p : DhcpPacket) : List Nat :=
  let base :=
    p.op :: p.htype :: p.hlen :: p.hops ::
    (be32 p.xid ++ be16 p.secs ++ be16 p.flags ++
     be32 p.ciaddr ++ be32 p.yiaddr ++ be32 p.siaddr ++ be32 p.giaddr ++
     p.chaddr ++ p.sname ++ p.file ++ magicCookie ++
     serializeOptions p.options ++ [255])
  base ++ List.replicate (300 - base.length) 0

/-- DhcpPacket::get_option: first occurrence of the code. -/
def getOpt (p : DhcpPacket) (code : Nat) : Option DhcpOption :=
  p.options.find? (fun o => decide (o.code = code))

/-- DhcpPacket::get_message_type: option 53, first data byte, valid codes
1 through 8 only (TryFrom for DhcpMessageType). -/
def getMessageType (p : DhcpPacket) : Option Nat :=
  (getOpt p 53).bind (fun o =>
    match o.data with
    | [] => none
    | b :: _ => if 1 ≤ b ∧ b ≤ 8 then some b else none)

/-- DhcpPacket::get_client_mac: first 6 bytes of chaddr. -/
def getClientMac (p : DhcpPacket) : List Nat :=
  p.chaddr.take 6

/-- DhcpPacket::get_requested_ip: option 50 when its data is 4 bytes. -/
def getRequestedIp (p : DhcpPacket) : Option Nat :=
  (getOpt p 50).bind (fun o =>
    if o.data.length = 4 then some (beCombine o.data) else none)

/-- DhcpPacket::get_hostname: option 12 decoded to a string. The utf8
validity check of String::from_utf8 is not modelled; hostname content does
not influence any claim below. -/
def getHostname (p : DhcpPacket) : Option String :=
  (getOpt p 12).map (fun o => String.mk (o.data.map (fun b => Char.ofNat b)))

/-- DhcpPacket::is_broadcast: flag bit 0x8000. -/
def isBroadcast (p : DhcpPacket) : Bool :=
  p.flags.testBit 15

/-- Bytes of a wire frame are in range. -/
def ValidBytes (l : List Nat) : Prop :=
  ∀ b ∈ l, b < 256

instance decValidBytes (l : List Nat) : Decidable (ValidBytes l) :=
  inferInstanceAs (Decidable (∀ b ∈ l, b < 256))

deriving instance DecidableEq for Except

/-- The 28 scalar header bytes of a serialized packet, as to_bytes lays
them out. -/
def hdOf (p : DhcpPacket) : List Nat :=
  p.op :: p.htype :: p.hlen :: p.hops ::
  (be32 p.xid ++ (be16 p.secs ++ (be16 p.flags ++ (be32 p.ciaddr ++
    (be32 p.yiaddr ++ (be32 p.siaddr ++ be32 p.giaddr))))))

/-- Lease states as stored in the state column. -/
inductive LeaseState
  | active
  | released
  | expired
  | declined
deriving DecidableEq, Repr

/-- A row of dhcp_leases (struct DhcpLease, src/database/models.rs),
restricted to the columns the claims touch. The id models the primary
key used by update_lease_end. -/
structure Lease where
  id : Nat
  subnet_id : Nat
  mac : List Nat
  ip : Nat
  hostname : Option String
  lease_start : Nat
  lease_end : Nat
  state : LeaseState
deriving DecidableEq, Repr

/-- A row of dhcp_reservations (struct DhcpReservation). -/
structure Reservation where
  subnet_id : Nat
  mac : List Nat
  ip : Nat
deriving DecidableEq, Repr

/-- A subnet (struct DhcpSubnet): the network CIDR is kept as the stored
address plus the mask bit count; start_ip and end_ip bound the allocation
range; lease_duration is in seconds. -/
structure Subnet where
  id : Nat
  netAddr : Nat
  maskBits : Nat
  start_ip : Nat
  end_ip : Nat
  gateway : Nat
  dns_servers : List Nat
  domain_name : Option String
  lease_duration : Nat
deriving DecidableEq, Repr

/-- The masked network address, as ipnetwork computes addr AND mask. -/
def Subnet.networkMasked (s : Subnet) : Nat :=
  s.netAddr / 2 ^ (32 - s.maskBits) * 2 ^ (32 - s.maskBits)

/-- The broadcast address: masked network address OR host mask. -/
def Subnet.broadcastAddr (s : Subnet) : Nat :=
  s.networkMasked + (2 ^ (32 - s.maskBits) - 1)

/-- Network containment test (IpNetwork::contains): the top maskBits bits
of the address agree with those of the network address. -/
def Subnet.containsIp (s : Subnet) (ip : Nat) : Bool :=
  ip / 2 ^ (32 - s.maskBits) == s.netAddr / 2 ^ (32 - s.maskBits)

/-- The persisted lease store: the dhcp_leases and dhcp_reservations
tables, with a running primary-key counter for inserted leases. -/
structure Store where
  leases : List Lease
  reservations : List Reservation
  nextId : Nat
deriving DecidableEq, Repr

/-- The empty lease table. -/
def Store.empty : Store := ⟨[], [], 0⟩

/-- count_active_leases (lease_manager_queries.rs): rows on (subnet_id,
ip) with state active and lease_end strictly after NOW(). -/
def countActiveLeases (s : Store) (now sid ip : Nat) : Nat :=
  (s.leases.filter (fun l =>
    decide (l.subnet_id = sid ∧ l.ip = ip ∧ l.state = LeaseState.active ∧
      now < l.lease_end))).length

/-- count_reservations: rows on (subnet_id, ip). -/
def countReservations (s : Store) (sid ip : Nat) : Nat :=
  (s.reservations.filter (fun r =>
    decide (r.subnet_id = sid ∧ r.ip = ip))).length

/-- insert_or_update_lease: INSERT with ON CONFLICT (mac_address) DO
UPDATE. The mac_address column carries a unique constraint, so a conflict
rewrites the existing row for that MAC in place (new subnet, ip, times,
hostname, state active); otherwise a fresh row is appended. Returns the
canonical row. -/
def insertOrUpdateLease (s : Store) (sid : Nat) (mac : List Nat) (ip : Nat)
    (hostname : Option String) (ls le : Nat) : Store × Lease :=
  match s.leases.find? (fun l => decide (l.mac = mac)) with
  | some old =>
    let upd : Lease :=
      { old with subnet_id := sid, ip := ip, hostname := hostname
                 lease_start := ls, lease_end := le, state := LeaseState.active }
    ({ s with leases := s.leases.map (fun l =>
        if l.mac = mac then
          { l with subnet_id := sid, ip := ip, hostname := hostname
                   lease_start := ls, lease_end := le, state := LeaseState.active }
        else l) },
     upd)
  | none =>
    let nl : Lease := ⟨s.nextId, sid, mac, ip, hostname, ls, le, LeaseState.active⟩
    ({ s with leases := s.leases ++ [nl], nextId := s.nextId + 1 }, nl)

/-- find_active_lease_by_mac_and_ip: first row matching mac, ip and state
active. The query does not check lease_end. -/
def findActiveLeaseByMacAndIp (s : Store) (mac : List Nat) (ip : Nat) :
    Option Lease :=
  s.leases.find? (fun l =>
    decide (l.mac = mac ∧ l.ip = ip ∧ l.state = LeaseState.active))

/-- update_lease_end: set lease_end on the row with the given id; the
returned Option models the fetch_one error when no row matches. -/
def updateLeaseEnd (s : Store) (lid newEnd : Nat) : Store × Option Lease :=
  ({ s with leases := s.leases.map (fun l =>
      if l.id = lid then { l with lease_end := newEnd } else l) },
   (s.leases.find? (fun l => decide (l.id = lid))).map
     (fun l => { l with lease_end := newEnd }))

/-- release_lease (query): active rows matching (mac, ip) become
released; the Bool reports whether any row was affected. -/
def releaseLeaseQ (s : Store) (mac : List Nat) (ip : Nat) : Store × Bool :=
  ({ s with leases := s.leases.map (fun l =>
      if l.mac = mac ∧ l.ip = ip ∧ l.state = LeaseState.active then
        { l with state := LeaseState.released }
      else l) },
   s.leases.any (fun l =>
     decide (l.mac = mac ∧ l.ip = ip ∧ l.state = LeaseState.active)))

/-- get_reservation: first row on (subnet_id, mac). -/
def getReservation (s : Store) (sid : Nat) (mac : List Nat) :
    Option Reservation :=
  s.reservations.find? (fun r => decide (r.subnet_id = sid ∧ r.mac = mac))

/-- get_active_lease_by_mac: active rows for the MAC with lease_end after
NOW(), ordered by lease_end descending, limit 1. -/
def getActiveLeaseByMac (s : Store) (now : Nat) (mac : List Nat) :
    Option Lease :=
  (s.leases.filter (fun l =>
    decide (l.mac = mac ∧ l.state = LeaseState.active ∧ now < l.lease_end))).foldl
    (fun acc l =>
      match acc with
      | none => some l
      | some b => if b.lease_end < l.lease_end then some l else some b)
    none

/-- expire_old_leases: active rows with lease_end before NOW() become
expired; returns the affected row count. -/
def expireOldLeases (s : Store) (now : Nat) : Store × Nat :=
  ({ s with leases := s.leases.map (fun l =>
      if l.state = LeaseState.active ∧ l.lease_end < now then
        { l with state := LeaseState.expired }
      else l) },
   (s.leases.filter (fun l =>
     decide (l.state = LeaseState.active ∧ l.lease_end < now))).length)

/-- Lookup in the in-memory subnet map by subnet id. -/
def findSubnetById (subnets : List Subnet) (sid : Nat) : Option Subnet :=
  subnets.find? (fun s => decide (s.id = sid))

/-- LeaseManager::find_subnet_for_client: the relay address, when given,
replaces the client address, and the first subnet whose network contains
the target wins. The server call sites always pass some giaddr because of
the Into conversion on packet.giaddr. -/
def findSubnetForClient (subnets : List Subnet) (clientIp : Nat)
    (relay : Option Nat) : Option Subnet :=
  let target := relay.getD clientIp
  subnets.find? (fun s => s.containsIp target)

/-- LeaseManager::is_ip_in_use: an active unexpired lease or any
reservation on (subnet, ip). -/
def isIpInUse (s : Store) (now sid ip : Nat) : Bool :=
  0 < countActiveLeases s now sid ip || 0 < countReservations s sid ip

/-- The ascending pool scan of find_available_ip: from ip, for fuel
addresses, skip the network and broadcast addresses and addresses in use,
and return the first remaining one. -/
def scanFrom (sub : Subnet) (s : Store) (now : Nat) : Nat → Nat → Option Nat
  | _, 0 => none
  | ip, fuel + 1 =>
    if ip = sub.netAddr ∨ ip = sub.broadcastAddr then
      scanFrom sub s now (ip + 1) fuel
    else if isIpInUse s now sub.id ip then
      scanFrom sub s now (ip + 1) fuel
    else some ip

/-- The full pool scan over start_ip..=end_ip. -/
def scanFree (sub : Subnet) (s : Store) (now : Nat) : Option Nat :=
  scanFrom sub s now sub.start_ip (sub.end_ip + 1 - sub.start_ip)

/-- LeaseManager::find_available_ip: reservation first, then the active
lease the MAC already holds in this subnet, then the ascending first-free
scan. The outer
Option models the error when the subnet id is not loaded; the inner Option
is the None returned on pool exhaustion. -/
def findAvailableIp (subnets : List Subnet) (s : Store) (now sid : Nat)
    (mac : List Nat) : Option (Option Nat) :=
  match findSubnetById subnets sid with
  | none => none
  | some sub =>
    match getReservation s sid mac with
    | some r => some (some r.ip)
    | none =>
      let fromLease :=
        match getActiveLeaseByMac s now mac with
        | some l => if l.subnet_id = sid then some l.ip else none
        | none => none
      match fromLease with
      | some ip => some (some ip)
      | none => some (scanFree sub s now)

/-- Dotted-quad display of an address. -/
def ipToString (ip : Nat) : String :=
  toString (ip / 16777216 % 256) ++ "." ++ toString (ip / 65536 % 256) ++ "." ++
  toString (ip / 256 % 256) ++ "." ++ toString (ip % 256)

/-- LeaseManager::generate_hostname: template substitution of {ip},
{ip_dash} and {ip_last}; an empty template disables synthesis. -/
def generateHostname (template : String) (ip : Nat) : Option String :=
  if template = "" then none
  else some
    (((template.replace "{ip}" (ipToString ip)).replace "{ip_dash}"
        ((ipToString ip).replace "." "-")).replace "{ip_last}"
      (toString (ip % 256)))

/-- Server and manager settings the claims need. -/
structure Config where
  server_ip : Nat
  hostname_template : String
deriving Repr

/-- LeaseManager::create_lease: look up the subnet (none models the
error), compute lease_start = now and lease_end = now + lease_duration,
fall back to the synthesized hostname, and upsert. -/
def createLease (cfg : Config) (subnets : List Subnet) (s : Store)
    (now sid : Nat) (mac : List Nat) (ip : Nat) (hostname : Option String) :
    Option (Store × Lease) :=
  match findSubnetById subnets sid with
  | none => none
  | some sub =>
    let finalHostname :=
      match hostname with
      | some h => some h
      | none => generateHostname cfg.hostname_template ip
    some (insertOrUpdateLease s sid mac ip finalHostname now
      (now + sub.lease_duration))

/-- LeaseManager::renew_lease: find the active (mac, ip) row, look up its
subnet (error when missing), and set lease_end to now + lease_duration.
Returns the renewed row, or none when no active row matched. -/
def renewLease (subnets : List Subnet) (s : Store) (now : Nat)
    (mac : List Nat) (requestedIp : Nat) :
    Except Unit (Store × Option Lease) :=
  match findActiveLeaseByMacAndIp s mac requestedIp with
  | none => Except.ok (s, none)
  | some l =>
    match findSubnetById subnets l.subnet_id with
    | none => Except.error ()
    | some sub =>
      let newEnd := now + sub.lease_duration
      let p := updateLeaseEnd s l.id newEnd
      match p.2 with
      | none => Except.error ()
      | some rl => Except.ok (p.1, some rl)

/-- DhcpOptionsBuilder plus build_subnet_options (server.rs): subnet mask,
router, broadcast, lease time, renewal time (duration / 2), rebind time
(duration * 7 / 8), then DNS servers when nonempty and the domain name
when present. -/
def buildSubnetOptions (sub : Subnet) : List DhcpOption :=
  let mask := 4294967296 - 2 ^ (32 - sub.maskBits)
  let base : List DhcpOption :=
    [⟨1, be32 mask⟩,
     ⟨3, be32 sub.gateway⟩,
     ⟨28, be32 sub.broadcastAddr⟩,
     ⟨51, be32 sub.lease_duration⟩,
     ⟨58, be32 (sub.lease_duration / 2)⟩,
     ⟨59, be32 (sub.lease_duration * 7 / 8)⟩]
  let withDns :=
    if sub.dns_servers.isEmpty then base
    else base ++ [⟨6, sub.dns_servers.foldl (fun acc ip => acc ++ be32 ip) []⟩]
  match sub.domain_name with
  | some d => withDns ++ [⟨15, d.toList.map Char.toNat⟩]
  | none => withDns

/-- DhcpServer::create_reply_packet: BOOTREPLY sharing htype, hlen, xid,
flags, giaddr and chaddr with the request, siaddr = server ip, then
set_message_type and set_server_id on the fresh option list. -/
def createReplyPacket (cfg : Config) (req : DhcpPacket) (msgType : Nat) :
    DhcpPacket :=
  { DhcpPacket.new with
    op := 2
    htype := req.htype
    hlen := req.hlen
    xid := req.xid
    flags := req.flags
    giaddr := req.giaddr
    chaddr := req.chaddr
    siaddr := cfg.server_ip
    options := [⟨53, [msgType]⟩, ⟨54, be32 cfg.server_ip⟩] }

/-- DhcpServer::send_reply: destination address and port. Broadcast to
255.255.255.255:68 when the broadcast flag was set or the reply giaddr is
zero, else unicast to giaddr:67. -/
def sendReplyDest (replyGiaddr : Nat) (broadcast : Bool) : Nat × Nat :=
  if broadcast || replyGiaddr == 0 then (4294967295, 68)
  else (replyGiaddr, 67)

/-- A datagram the server sent: the reply packet and its destination. -/
structure Sent where
  pkt : DhcpPacket
  dest : Nat × Nat
deriving DecidableEq, Repr

/-- Result of one packet handler: either normal completion with the
datagrams sent (the handlers send at most one), or an error return, which
the caller only logs. -/
inductive HRes
  | done (sent : Option Sent)
  | failed
deriving DecidableEq, Repr

/-- DhcpServer::handle_discover. Returns the store (unchanged: DISCOVER
persists nothing) and the OFFER sent, if any. -/
def handleDiscover (cfg : Config) (subnets : List Subnet) (st : Store)
    (now : Nat) (pk : DhcpPacket) (srcIp : Nat) : Store × HRes :=
  let mac := getClientMac pk
  match findSubnetForClient subnets srcIp (some pk.giaddr) with
  | none => (st, HRes.done none)
  | some sub =>
    match findAvailableIp subnets st now sub.id mac with
    | none => (st, HRes.failed)
    | some none => (st, HRes.done none)
    | some (some ip) =>
      let reply0 := createReplyPacket cfg pk 2
      let reply := { reply0 with yiaddr := ip,
                                 options := reply0.options ++ buildSubnetOptions sub }
      (st, HRes.done (some ⟨reply, sendReplyDest reply.giaddr (isBroadcast pk)⟩))

/-- DhcpServer::send_nak as a reply value. -/
def nakReply (cfg : Config) (pk : DhcpPacket) : Sent :=
  let reply := createReplyPacket cfg pk 6
  ⟨reply, sendReplyDest reply.giaddr (isBroadcast pk)⟩

/-- The target ip of a REQUEST: option 50 falling back to ciaddr, with
the unspecified address filtered out
(get_requested_ip().or(Some(ciaddr)).filter(ip != UNSPECIFIED)). -/
def requestedOf (pk : DhcpPacket) : Option Nat :=
  match getRequestedIp pk with
  | some ip => if ip = 0 then none else some ip
  | none => if pk.ciaddr = 0 then none else some pk.ciaddr

/-- DhcpServer::handle_request: target ip from option 50 falling back to
ciaddr, zero filtered out; first a renewal attempt, then subnet lookup and
a fresh allocation that must return exactly the target, otherwise NAK. -/
def handleRequest (cfg : Config) (subnets : List Subnet) (st : Store)
    (now : Nat) (pk : DhcpPacket) : Store × HRes :=
  let mac := getClientMac pk
  match requestedOf pk with
  | none => (st, HRes.done (some (nakReply cfg pk)))
  | some t =>
    match renewLease subnets st now mac t with
    | Except.error _ => (st, HRes.failed)
    | Except.ok (st1, some lease) =>
      let reply0 := createReplyPacket cfg pk 5
      let reply1 := { reply0 with yiaddr := lease.ip }
      let reply :=
        match findSubnetForClient subnets t (some pk.giaddr) with
        | some sub => { reply1 with options := reply1.options ++ buildSubnetOptions sub }
        | none => reply1
      (st1, HRes.done (some ⟨reply, sendReplyDest reply.giaddr (isBroadcast pk)⟩))
    | Except.ok (_, none) =>
      match findSubnetForClient subnets t (some pk.giaddr) with
      | none => (st, HRes.done (some (nakReply cfg pk)))
      | some sub =>
        match findAvailableIp subnets st now sub.id mac with
        | none => (st, HRes.failed)
        | some avail =>
          if avail = some t then
            match createLease cfg subnets st now sub.id mac t (getHostname pk) with
            | none => (st, HRes.failed)
            | some (st2, lease) =>
              let reply0 := createReplyPacket cfg pk 5
              let reply := { reply0 with yiaddr := lease.ip,
                                         options := reply0.options ++ buildSubnetOptions sub }
              (st2, HRes.done (some ⟨reply, sendReplyDest reply.giaddr (isBroadcast pk)⟩))
          else (st, HRes.done (some (nakReply cfg pk)))

/-- DhcpServer::handle_release: best-effort release of (mac, ciaddr), no
reply; a zero ciaddr is ignored. -/
def handleRelease (st : Store) (pk : DhcpPacket) : Store × HRes :=
  let mac := getClientMac pk
  if pk.ciaddr = 0 then (st, HRes.done none)
  else ((releaseLeaseQ st mac pk.ciaddr).1, HRes.done none)

/-- DhcpServer::handle_decline: the declined ip is taken from option 50;
the handler merely releases the (mac, ip) lease and keeps no cooldown
state. No reply is sent. -/
def handleDecline (st : Store) (pk : DhcpPacket) : Store × HRes :=
  let mac := getClientMac pk
  let ip := (getRequestedIp pk).getD 0
  if ip = 0 then (st, HRes.done none)
  else ((releaseLeaseQ st mac ip).1, HRes.done none)

/-- DhcpServer::handle_inform: ACK carrying configuration only, yiaddr
zero, store untouched. -/
def handleInform (cfg : Config) (subnets : List Subnet) (st : Store)
    (pk : DhcpPacket) : Store × HRes :=
  let reply0 := createReplyPacket cfg pk 5
  let reply1 := { reply0 with yiaddr := 0 }
  let reply :=
    match findSubnetForClient subnets pk.ciaddr (some pk.giaddr) with
    | some sub => { reply1 with options := reply1.options ++ buildSubnetOptions sub }
    | none => reply1
  (st, HRes.done (some ⟨reply, sendReplyDest reply.giaddr (isBroadcast pk)⟩))

/-- One operation on the lease table: the four packet handlers that touch
it plus the direct manager operations (creation, renewal, release,
expiration tick). -/
inductive Op
  | discover (pk : DhcpPacket) (srcIp : Nat)
  | request (pk : DhcpPacket)
  | release (pk : DhcpPacket)
  | decline (pk : DhcpPacket)
  | inform (pk : DhcpPacket)
  | createL (sid : Nat) (mac : List Nat) (ip : Nat) (hostname : Option String)
  | renewL (mac : List Nat) (ip : Nat)
  | releaseL (mac : List Nat) (ip : Nat)
  | expire
deriving Repr

/-- Apply one operation to the store at a given time. Handler errors leave
the store as the handler left it. -/
def applyOp (cfg : Config) (subnets : List Subnet) (st : Store) (now : Nat) :
    Op → Store
  | Op.discover pk srcIp => (handleDiscover cfg subnets st now pk srcIp).1
  | Op.request pk => (handleRequest cfg subnets st now pk).1
  | Op.release pk => (handleRelease st pk).1
  | Op.decline pk => (handleDecline st pk).1
  | Op.inform pk => (handleInform cfg subnets st pk).1
  | Op.createL sid mac ip hostname =>
    match createLease cfg subnets st now sid mac ip hostname with
    | some (st1, _) => st1
    | none => st
  | Op.renewL mac ip =>
    match renewLease subnets st now mac ip with
    | Except.ok (st1, _) => st1
    | Except.error _ => st
  | Op.releaseL mac ip => (releaseLeaseQ st mac ip).1
  | Op.expire => (expireOldLeases st now).1

/-- Run a timed sequence of operations from the empty lease table. -/
def run (cfg : Config) (subnets : List Subnet) (tr : List (Nat × Op)) :
    Store :=
  tr.foldl (fun st p => applyOp cfg subnets st p.1 p.2) Store.empty

/-- A DNS record row as the claims see it: owning zone name, record name,
record type, value, and the dynamic flag. -/
structure DnsRecordRow where
  zone : String
  name : String
  rtype : String
  value : String
  is_dynamic : Bool
deriving DecidableEq, Repr

/-- The DNS side of the database: zone serials and record rows. -/
structure ZoneDb where
  serials : List (String × Nat)
  records : List DnsRecordRow
deriving DecidableEq, Repr

/-- SimpleZoneManager::add_dynamic_record (src/dns/simple_zone_manager.rs):
the function logs the would-be record and returns Ok without touching the
database (its body is a TODO stub). -/
def addDynamicRecord (db : ZoneDb) (_zoneName hostname : String) (_ip : Nat)
    (_ttl : Nat) : Except String ZoneDb :=
  let _ := hostname
  Except.ok db

/-- DynamicUpdater::add_dhcp_record (src/dns/dynamic_updates.rs): reject an
empty hostname, compute the FQDN (the hostname itself when it already
contains a dot, else hostname.domain), then delegate to the zone manager. -/
def addDhcpRecord (db : ZoneDb) (hostname : String) (ip : Nat)
    (domain : String) (ttl : Nat) : Except String ZoneDb :=
  if hostname = "" then Except.error "Hostname cannot be empty"
  else
    let fqdn := if hostname.contains '.' then hostname
                else hostname ++ "." ++ domain
    addDynamicRecord db domain fqdn ip ttl

/-- DhcpDnsIntegration::on_lease_created: forwards to add_dhcp_record when
a hostname is present. on_lease_renewed is the same function. -/
def onLeaseCreated (db : ZoneDb) (hostname : Option String) (ip : Nat)
    (defaultDomain : String) (defaultTtl : Nat) : Except String ZoneDb :=
  match hostname with
  | some h => addDhcpRecord db h ip defaultDomain defaultTtl
  | none => Except.ok db

/-- Number of active leases of one MAC in the store. -/
def activeCountForMac (s : Store) (mac : List Nat) : Nat :=
  (s.leases.filter (fun l =>
    decide (l.mac = mac ∧ l.state = LeaseState.active))).length

/-- The per-mac uniqueness invariant: pairwise distinct MAC columns (the
unique constraint on mac_address that the upsert relies on). -/
def MacsUnique (s : Store) : Prop :=
  s.leases.Pairwise (fun a b => a.mac ≠ b.mac)

/-- A /24 test subnet 192.168.0.0/24 with pool .100 to .110, gateway .1
and a 100 second lease time. -/
def sampleSubnet : Subnet :=
  ⟨1, 3232235520, 24, 3232235620, 3232235630, 3232235521, [], none, 100⟩

/-- Test server settings: server ip 192.168.0.1, no hostname template. -/
def sampleConfig : Config := ⟨3232235521, ""⟩

/-- Test client MAC aa bb cc dd ee 01. -/
def macOne : List Nat := [170, 187, 204, 221, 238, 1]

/-- Test client MAC aa bb cc dd ee 02. -/
def macTwo : List Nat := [170, 187, 204, 221, 238, 2]

/-- A relayed DHCPREQUEST for a target ip: message type 3, option 50,
giaddr 192.168.0.1 so the subnet lookup by giaddr succeeds. -/
def requestPacket (mac : List Nat) (target : Nat) : DhcpPacket :=
  { DhcpPacket.new with
    chaddr := mac ++ List.replicate 10 0
    giaddr := 3232235521
    options := [⟨53, [3]⟩, ⟨50, be32 target⟩] }

/-- A DHCPDECLINE carrying the declined ip in option 50. -/
def declinePacket (mac : List Nat) (target : Nat) : DhcpPacket :=
  { DhcpPacket.new with
    chaddr := mac ++ List.replicate 10 0
    options := [⟨53, [4]⟩, ⟨50, be32 target⟩] }

/-- Two REQUESTs for the same ip from different MACs, the second after the
first lease has timed out (at 200 s, past lease_end 100) but before any
expiration tick has run. -/
def traceTwoActive : List (Nat × Op) :=
  [(0, Op.request (requestPacket macOne 3232235620)),
   (200, Op.request (requestPacket macTwo 3232235620))]

/-- The store after leasing .100 to macOne at time 0. -/
def storeLeased : Store :=
  run sampleConfig [sampleSubnet] [(0, Op.request (requestPacket macOne 3232235620))]

/-- The store after macOne declines .100. -/
def storeDeclined : Store :=
  (handleDecline storeLeased (declinePacket macOne 3232235620)).1

/-- A store where macTwo holds an active lease on the ip reserved for
macOne: reached, for instance, when the reservation was created while the
lease was live. -/
def storeReservedConflict : Store :=
  ⟨[⟨0, 1, macTwo, 3232235620, none, 0, 100, LeaseState.active⟩],
   [⟨1, macOne, 3232235620⟩], 1⟩

/-- A store holding nothing but a reservation of .105 for macOne. -/
def storeReservedOnly : Store := ⟨[], [⟨1, macOne, 3232235625⟩], 0⟩

/-- A 246 byte frame: header of 7 bytes, magic cookie, a type option and
a requested-ip option. -/
def sampleFrame : List Nat :=
  List.replicate 236 7 ++ (magicCookie ++ [53, 1, 3, 50, 4, 1, 2, 3, 4, 255])

/-- The parse of sampleFrame, written out. -/
def samplePacket : DhcpPacket :=
  { op := 7, htype := 7, hlen := 7, hops := 7, xid := 117901063
    secs := 1799, flags := 1799
    ciaddr := 117901063, yiaddr := 117901063, siaddr := 117901063
    giaddr := 117901063
    chaddr := List.replicate 16 7
    sname := List.replicate 64 7
    file := List.replicate 128 7
    options := [⟨53, [3]⟩, ⟨50, [1, 2, 3, 4]⟩] }

/-- A zone database with one zone named lan at serial 5 and no records. -/
def sampleZoneDb : ZoneDb := ⟨[("lan", 5)], []⟩

/-- The ACK the server sends for a fresh relayed REQUEST of .100 on the
empty store. -/
def ackSentSample : Sent :=
  match (handleRequest sampleConfig [sampleSubnet] Store.empty 0
      (requestPacket macOne 3232235620)).2 with
  | HRes.done (some s) => s
  | _ => ⟨DhcpPacket.new, (0, 0)⟩

/-- Well-formedness of an option list as the parser produces it: codes are
real option codes (not pad, not terminator, single bytes) and data fits a
single length byte. -/
def WFOpts (opts : List DhcpOption) : Prop :=
  ∀ o ∈ opts, 1 ≤ o.code ∧ o.code ≤ 254 ∧ o.data.length ≤ 255 ∧
    ∀ b ∈ o.data, b < 256

instance decWFOpts (opts : List DhcpOption) : Decidable (WFOpts opts) :=
  inferInstanceAs (Decidable (∀ o ∈ opts, 1 ≤ o.code ∧ o.code ≤ 254 ∧
    o.data.length ≤ 255 ∧ ∀ b ∈ o.data, b < 256))

theorem length_be32 (n : Nat) : (be32 n).length = 4 := rfl

theorem length_be16 (n : Nat) : (be16 n).length = 2 := rfl

theorem beCombine_be32 (n : Nat) (h : n < 4294967296) :
    beCombine (be32 n) = n := by
  simp [beCombine, be32]
  omega

theorem beCombine_be16 (n : Nat) (h : n < 65536) :
    beCombine (be16 n) = n := by
  simp [beCombine, be16]
  omega

theorem beCombine_lt_of_len_four (l : List Nat) (h : l.length = 4)
    (hv : ∀ b ∈ l, b < 256) : beCombine l < 4294967296 := by
  match l, h with
  | [a, b, c, d], _ =>
    have ha := hv a (by simp)
    have hb := hv b (by simp)
    have hc := hv c (by simp)
    have hd := hv d (by simp)
    simp [beCombine]
    omega

theorem beCombine_lt_of_len_two (l : List Nat) (h : l.length = 2)
    (hv : ∀ b ∈ l, b < 256) : beCombine l < 65536 := by
  match l, h with
  | [a, b], _ =>
    have ha := hv a (by simp)
    have hb := hv b (by simp)
    simp [beCombine]
    omega

theorem sliceChk_of_le (data : List Nat) (a b : Nat) (h1 : b ≤ data.length)
    (h2 : a ≤ b) : sliceChk data a b = some ((data.drop a).take (b - a)) := by
  simp [sliceChk, h1, h2]

theorem getElem?_eq_getD (data : List Nat) (i : Nat) (h : i < data.length) :
    data[i]? = some (data.getD i 0) := by
  rw [List.getD_eq_getElem?_getD, List.getElem?_eq_getElem h]
  rfl

set_option maxRecDepth 2000 in
/-- Full characterization of a successful parse: a frame of at least 236
bytes parses to the record read off the wire layout. -/
theorem parse_eq_of_le (data : List Nat) (h : 236 ≤ data.length) :
    parse data = some (Except.ok
      { op := data.getD 0 0
        htype := data.getD 1 0
        hlen := data.getD 2 0
        hops := data.getD 3 0
        xid := beCombine ((data.drop 4).take 4)
        secs := beCombine ((data.drop 8).take 2)
        flags := beCombine ((data.drop 10).take 2)
        ciaddr := beCombine ((data.drop 12).take 4)
        yiaddr := beCombine ((data.drop 16).take 4)
        siaddr := beCombine ((data.drop 20).take 4)
        giaddr := beCombine ((data.drop 24).take 4)
        chaddr := (data.drop 28).take 16
        sname := (data.drop 44).take 64
        file := (data.drop 108).take 128
        options := if 240 < data.length ∧ (data.drop 236).take 4 = magicCookie
                   then parseOptions (data.drop 240) else [] }) := by
  have g0 := getElem?_eq_getD data 0 (by omega)
  have g1 := getElem?_eq_getD data 1 (by omega)
  have g2 := getElem?_eq_getD data 2 (by omega)
  have g3 := getElem?_eq_getD data 3 (by omega)
  have s4 := sliceChk_of_le data 4 8 (by omega) (by omega)
  have s8 := sliceChk_of_le data 8 10 (by omega) (by omega)
  have s10 := sliceChk_of_le data 10 12 (by omega) (by omega)
  have s12 := sliceChk_of_le data 12 16 (by omega) (by omega)
  have s16 := sliceChk_of_le data 16 20 (by omega) (by omega)
  have s20 := sliceChk_of_le data 20 24 (by omega) (by omega)
  have s24 := sliceChk_of_le data 24 28 (by omega) (by omega)
  have s28 := sliceChk_of_le data 28 44 (by omega) (by omega)
  have s44 := sliceChk_of_le data 44 108 (by omega) (by omega)
  have s108 := sliceChk_of_le data 108 236 (by omega) (by omega)
  unfold parse
  rw [if_neg (by omega : ¬ data.length < 236)]
  simp only [readBE, g0, g1, g2, g3, s4, s8, s10, s12, s16, s20, s24, s28,
    s44, s108, Option.map_some', Option.bind_eq_bind, Option.some_bind]

/-- C10. Implicit parser totality: DhcpPacket::parse returns a value (Ok
or Err) on every input; a result of none would model an out-of-bounds
panic, and the option loop is total by construction (its index strictly
increases, modelled by the structural fuel of parseOptionsGo). -/
theorem parse_never_panics (data : List Nat) : ∃ r, parse data = some r := by
  by_cases h : data.length < 236
  · refine ⟨Except.error "DHCP packet too short", ?_⟩
    simp [parse, h]
  · exact ⟨_, parse_eq_of_le data (by omega)⟩

theorem parseOptionsGo_terminator (fuel : Nat) (tail : List Nat) :
    parseOptionsGo fuel (255 :: tail) = [] := by
  cases fuel <;> simp [parseOptionsGo]

theorem parseOptionsGo_truncated (fuel c lenB : Nat) (tail : List Nat)
    (h1 : 1 ≤ c) (h2 : c ≤ 254) (h3 : tail.length < lenB) :
    parseOptionsGo fuel (c :: lenB :: tail) = [] := by
  cases fuel with
  | zero => simp [parseOptionsGo]
  | succ f =>
    have hc255 : ¬ c = 255 := by omega
    have hc0 : ¬ c = 0 := by omega
    simp [parseOptionsGo, hc255, hc0, h3]

/-- Scanning a serialized well-formed option list consumes exactly one
fuel per option and leaves the continuation to be scanned. -/
theorem parseOptionsGo_ser (opts : List DhcpOption) :
    ∀ (fuel : Nat) (rest : List Nat), WFOpts opts → opts.length ≤ fuel →
    parseOptionsGo fuel (serializeOptions opts ++ rest) =
      opts ++ parseOptionsGo (fuel - opts.length) rest := by
  induction opts with
  | nil => intro fuel rest _ _; simp [serializeOptions]
  | cons o rest' ih =>
    intro fuel rest hwf hfuel
    obtain ⟨f, rfl⟩ : ∃ f, fuel = f + 1 := by
      cases fuel with
      | zero => simp at hfuel
      | succ f => exact ⟨f, rfl⟩
    obtain ⟨hc1, hc2, hlen, _⟩ := hwf o (by simp)
    have hc255 : ¬ o.code = 255 := by omega
    have hc0 : ¬ o.code = 0 := by omega
    have hmod : o.data.length % 256 = o.data.length := Nat.mod_eq_of_lt (by omega)
    have hform : serializeOptions (o :: rest') ++ rest =
        o.code :: o.data.length % 256 ::
          (o.data ++ (serializeOptions rest' ++ rest)) := by
      simp [serializeOptions]
    rw [hform, hmod]
    have hnl : ¬ (o.data ++ (serializeOptions rest' ++ rest)).length <
        o.data.length := by
      simp
    rw [show parseOptionsGo (f + 1)
        (o.code :: o.data.length :: (o.data ++ (serializeOptions rest' ++ rest))) =
        ⟨o.code, (o.data ++ (serializeOptions rest' ++ rest)).take o.data.length⟩ ::
          parseOptionsGo f ((o.data ++ (serializeOptions rest' ++ rest)).drop o.data.length)
      from by simp [parseOptionsGo, hc255, hc0, hnl]]
    rw [List.take_left, List.drop_left]
    have hih := ih f rest (fun x hx => hwf x (by simp [hx]))
      (by simp at hfuel; omega)
    rw [hih]
    have hfe : f - rest'.length = f + 1 - (o :: rest').length := by
      simp only [List.length_cons]
      omega
    rw [hfe]
    rfl

theorem length_serializeOptions_ge (opts : List DhcpOption) :
    2 * opts.length ≤ (serializeOptions opts).length := by
  induction opts with
  | nil => simp [serializeOptions]
  | cons o rest ih => simp [serializeOptions]; omega

theorem wfOpts_nil : WFOpts [] := by
  intro o ho
  simp at ho

/-- Every option produced by the scanning loop is well formed when the
input bytes are. -/
theorem wf_parseOptionsGo (fuel : Nat) :
    ∀ data : List Nat, ValidBytes data → WFOpts (parseOptionsGo fuel data) := by
  induction fuel with
  | zero =>
    intro data _ o ho
    simp [parseOptionsGo] at ho
  | succ f ih =>
    intro data hv
    cases data with
    | nil =>
      intro o ho
      simp [parseOptionsGo] at ho
    | cons c rest =>
      show WFOpts (parseOptionsGo (f + 1) (c :: rest))
      by_cases h255 : c = 255
      · simp [parseOptionsGo, h255]
        exact wfOpts_nil
      · by_cases h0 : c = 0
        · simp only [parseOptionsGo, if_neg h255, if_pos h0]
          exact ih rest (fun b hb => hv b (List.mem_cons_of_mem c hb))
        · cases rest with
          | nil =>
            simp [parseOptionsGo, h255, h0]
            exact wfOpts_nil
          | cons lb rest2 =>
            by_cases hl : rest2.length < lb
            · simp [parseOptionsGo, h255, h0, hl]
              exact wfOpts_nil
            · simp only [parseOptionsGo, if_neg h255, if_neg h0, if_neg hl]
              intro o ho
              rcases List.mem_cons.mp ho with rfl | hmem
              · have hc : c < 256 := hv c (by simp)
                have hlb : lb < 256 := hv lb (by simp)
                refine ⟨show 1 ≤ c by omega, show c ≤ 254 by omega, ?_, ?_⟩
                · show (rest2.take lb).length ≤ 255
                  simp only [List.length_take]
                  omega
                · show ∀ b ∈ rest2.take lb, b < 256
                  intro b hb
                  exact hv b (List.mem_cons_of_mem c
                    (List.mem_cons_of_mem lb (List.mem_of_mem_take hb)))
              · exact ih (rest2.drop lb)
                  (fun b hb => hv b (List.mem_cons_of_mem c
                    (List.mem_cons_of_mem lb (List.mem_of_mem_drop hb))))
                  o hmem

set_option maxRecDepth 2000 in
/-- Parsing a frame split as 28 header bytes, chaddr, sname, file and a
tail holding cookie plus options. -/
theorem parse_split (hd ch sn fl tail : List Nat) (hhd : hd.length = 28)
    (hch : ch.length = 16) (hsn : sn.length = 64) (hfl : fl.length = 128) :
    parse (hd ++ (ch ++ (sn ++ (fl ++ tail)))) = some (Except.ok
      { op := hd.getD 0 0
        htype := hd.getD 1 0
        hlen := hd.getD 2 0
        hops := hd.getD 3 0
        xid := beCombine ((hd.drop 4).take 4)
        secs := beCombine ((hd.drop 8).take 2)
        flags := beCombine ((hd.drop 10).take 2)
        ciaddr := beCombine ((hd.drop 12).take 4)
        yiaddr := beCombine ((hd.drop 16).take 4)
        siaddr := beCombine ((hd.drop 20).take 4)
        giaddr := beCombine ((hd.drop 24).take 4)
        chaddr := ch
        sname := sn
        file := fl
        options := if 4 < tail.length ∧ tail.take 4 = magicCookie
                   then parseOptions (tail.drop 4) else [] }) := by
  set data := hd ++ (ch ++ (sn ++ (fl ++ tail))) with hdata
  have hlen : data.length = 236 + tail.length := by
    simp [hdata, hhd, hch, hsn, hfl]
    omega
  have d28 : data.drop 28 = ch ++ (sn ++ (fl ++ tail)) := List.drop_left' hhd
  have d44 : data.drop 44 = sn ++ (fl ++ tail) := by
    have h1 : data.drop 44 = (data.drop 28).drop 16 := by
      rw [List.drop_drop]
    rw [h1, d28, List.drop_left' hch]
  have d108 : data.drop 108 = fl ++ tail := by
    have h1 : data.drop 108 = (data.drop 44).drop 64 := by
      rw [List.drop_drop]
    rw [h1, d44, List.drop_left' hsn]
  have d236 : data.drop 236 = tail := by
    have h1 : data.drop 236 = (data.drop 108).drop 128 := by
      rw [List.drop_drop]
    rw [h1, d108, List.drop_left' hfl]
  have d240 : data.drop 240 = tail.drop 4 := by
    have h1 : data.drop 240 = (data.drop 236).drop 4 := by
      rw [List.drop_drop]
    rw [h1, d236]
  have dt : ∀ a b : Nat, a + b ≤ 28 → (data.drop a).take b = (hd.drop a).take b := by
    intro a b hab
    rw [hdata, List.drop_append_of_le_length (by omega),
      List.take_append_of_le_length (by simp [hhd]; omega)]
  have gd : ∀ i : Nat, i < 28 → data.getD i 0 = hd.getD i 0 := by
    intro i hi
    rw [hdata, List.getD_append _ _ _ _ (by omega)]
  have hcond : (240 < data.length) ↔ (4 < tail.length) := by
    rw [hlen]; omega
  rw [parse_eq_of_le data (by omega)]
  rw [d28, List.take_left' hch, d44, List.take_left' hsn, d108,
    List.take_left' hfl, d236, d240]
  rw [gd 0 (by omega), gd 1 (by omega), gd 2 (by omega), gd 3 (by omega)]
  rw [show (data.drop 4).take 4 = (hd.drop 4).take 4 from dt 4 4 (by omega),
    show (data.drop 8).take 2 = (hd.drop 8).take 2 from dt 8 2 (by omega),
    show (data.drop 10).take 2 = (hd.drop 10).take 2 from dt 10 2 (by omega),
    show (data.drop 12).take 4 = (hd.drop 12).take 4 from dt 12 4 (by omega),
    show (data.drop 16).take 4 = (hd.drop 16).take 4 from dt 16 4 (by omega),
    show (data.drop 20).take 4 = (hd.drop 20).take 4 from dt 20 4 (by omega),
    show (data.drop 24).take 4 = (hd.drop 24).take 4 from dt 24 4 (by omega)]
  simp only [hcond]

theorem length_hdOf (p : DhcpPacket) : (hdOf p).length = 28 := by
  simp [hdOf, be32, be16]

theorem toBytes_decomp (p : DhcpPacket) :
    ∃ k, toBytes p = hdOf p ++ (p.chaddr ++ (p.sname ++ (p.file ++
      (magicCookie ++ (serializeOptions p.options ++
        255 :: List.replicate k 0))))) := by
  refine ⟨300 - (p.op :: p.htype :: p.hlen :: p.hops ::
    (be32 p.xid ++ be16 p.secs ++ be16 p.flags ++
     be32 p.ciaddr ++ be32 p.yiaddr ++ be32 p.siaddr ++ be32 p.giaddr ++
     p.chaddr ++ p.sname ++ p.file ++ magicCookie ++
     serializeOptions p.options ++ [255])).length, ?_⟩
  simp [toBytes, List.append_assoc, hdOf]

set_option maxRecDepth 2000 in
/-- Serializing any packet with in-range scalar fields, sized byte arrays
and well-formed options and parsing the result gives the packet back. -/
theorem parse_toBytes (p : DhcpPacket)
    (hxid : p.xid < 4294967296) (hsecs : p.secs < 65536)
    (hflags : p.flags < 65536) (hci : p.ciaddr < 4294967296)
    (hyi : p.yiaddr < 4294967296) (hsi : p.siaddr < 4294967296)
    (hgi : p.giaddr < 4294967296) (hch : p.chaddr.length = 16)
    (hsn : p.sname.length = 64) (hfl : p.file.length = 128)
    (hwf : WFOpts p.options) :
    parse (toBytes p) = some (Except.ok p) := by
  obtain ⟨k, hk⟩ := toBytes_decomp p
  rw [hk]
  rw [parse_split (hdOf p) p.chaddr p.sname p.file
    (magicCookie ++ (serializeOptions p.options ++ 255 :: List.replicate k 0))
    (length_hdOf p) hch hsn hfl]
  have e0 : (hdOf p).getD 0 0 = p.op := rfl
  have e1 : (hdOf p).getD 1 0 = p.htype := rfl
  have e2 : (hdOf p).getD 2 0 = p.hlen := rfl
  have e3 : (hdOf p).getD 3 0 = p.hops := rfl
  have ex : ((hdOf p).drop 4).take 4 = be32 p.xid := by
    rw [show (hdOf p).drop 4 = be32 p.xid ++ (be16 p.secs ++ (be16 p.flags ++
      (be32 p.ciaddr ++ (be32 p.yiaddr ++ (be32 p.siaddr ++ be32 p.giaddr)))))
      from rfl, List.take_left' (length_be32 _)]
  have es : ((hdOf p).drop 8).take 2 = be16 p.secs := by
    rw [show (hdOf p).drop 8 = be16 p.secs ++ (be16 p.flags ++ (be32 p.ciaddr ++
      (be32 p.yiaddr ++ (be32 p.siaddr ++ be32 p.giaddr)))) from rfl,
      List.take_left' (length_be16 _)]
  have efl : ((hdOf p).drop 10).take 2 = be16 p.flags := by
    rw [show (hdOf p).drop 10 = be16 p.flags ++ (be32 p.ciaddr ++
      (be32 p.yiaddr ++ (be32 p.siaddr ++ be32 p.giaddr))) from rfl,
      List.take_left' (length_be16 _)]
  have eci : ((hdOf p).drop 12).take 4 = be32 p.ciaddr := by
    rw [show (hdOf p).drop 12 = be32 p.ciaddr ++ (be32 p.yiaddr ++
      (be32 p.siaddr ++ be32 p.giaddr)) from rfl,
      List.take_left' (length_be32 _)]
  have eyi : ((hdOf p).drop 16).take 4 = be32 p.yiaddr := by
    rw [show (hdOf p).drop 16 = be32 p.yiaddr ++ (be32 p.siaddr ++ be32 p.giaddr)
      from rfl, List.take_left' (length_be32 _)]
  have esi : ((hdOf p).drop 20).take 4 = be32 p.siaddr := by
    rw [show (hdOf p).drop 20 = be32 p.siaddr ++ be32 p.giaddr from rfl,
      List.take_left' (length_be32 _)]
  have egi : ((hdOf p).drop 24).take 4 = be32 p.giaddr := by
    rw [show (hdOf p).drop 24 = be32 p.giaddr ++ [] from
      by simp [hdOf, be32, be16], List.take_left' (length_be32 _)]
  have htl1 : 4 < (magicCookie ++ (serializeOptions p.options ++
      255 :: List.replicate k 0)).length := by
    simp [magicCookie]
  have htl2 : (magicCookie ++ (serializeOptions p.options ++
      255 :: List.replicate k 0)).take 4 = magicCookie :=
    List.take_left' rfl
  have htl3 : (magicCookie ++ (serializeOptions p.options ++
      255 :: List.replicate k 0)).drop 4 =
      serializeOptions p.options ++ 255 :: List.replicate k 0 :=
    List.drop_left' rfl
  have hopts : parseOptions (serializeOptions p.options ++
      255 :: List.replicate k 0) = p.options := by
    unfold parseOptions
    rw [parseOptionsGo_ser p.options _ _ hwf (by
      have := length_serializeOptions_ge p.options
      simp only [List.length_append]
      omega)]
    rw [parseOptionsGo_terminator]
    simp
  rw [e0, e1, e2, e3, ex, es, efl, eci, eyi, esi, egi,
    beCombine_be32 _ hxid, beCombine_be16 _ hsecs, beCombine_be16 _ hflags,
    beCombine_be32 _ hci, beCombine_be32 _ hyi, beCombine_be32 _ hsi,
    beCombine_be32 _ hgi, htl2, htl3, hopts]
  simp only [htl1, and_true, if_true, eq_self_iff_true, and_self, ite_true]

/-- C6. Codec round-trip: for every byte string that parses successfully,
parsing the serialization of the parse result gives the same parse result
(same header fields and same option list). -/
theorem codec_roundtrip (data : List Nat) (pk : DhcpPacket)
    (hv : ValidBytes data) (hp : parse data = some (Except.ok pk)) :
    parse (toBytes pk) = parse data := by
  by_cases hshort : data.length < 236
  · simp [parse, hshort] at hp
  · push_neg at hshort
    rw [parse_eq_of_le data hshort] at hp
    simp only [Option.some.injEq, Except.ok.injEq] at hp
    subst hp
    have hseg : ∀ a n : Nat, a + n ≤ 236 →
        ((data.drop a).take n).length = n ∧ ∀ b ∈ (data.drop a).take n, b < 256 := by
      intro a n han
      constructor
      · simp only [List.length_take, List.length_drop]
        omega
      · intro b hb
        exact hv b (List.mem_of_mem_drop (List.mem_of_mem_take hb))
    have hwfo : WFOpts (if 240 < data.length ∧ (data.drop 236).take 4 = magicCookie
        then parseOptions (data.drop 240) else []) := by
      by_cases hcook : 240 < data.length ∧ (data.drop 236).take 4 = magicCookie
      · simp only [if_pos hcook]
        exact wf_parseOptionsGo _ _ (fun b hb => hv b (List.mem_of_mem_drop hb))
      · simp only [if_neg hcook]
        exact wfOpts_nil
    rw [parse_eq_of_le data hshort]
    exact parse_toBytes _
      (beCombine_lt_of_len_four _ (hseg 4 4 (by omega)).1 (hseg 4 4 (by omega)).2)
      (beCombine_lt_of_len_two _ (hseg 8 2 (by omega)).1 (hseg 8 2 (by omega)).2)
      (beCombine_lt_of_len_two _ (hseg 10 2 (by omega)).1 (hseg 10 2 (by omega)).2)
      (beCombine_lt_of_len_four _ (hseg 12 4 (by omega)).1 (hseg 12 4 (by omega)).2)
      (beCombine_lt_of_len_four _ (hseg 16 4 (by omega)).1 (hseg 16 4 (by omega)).2)
      (beCombine_lt_of_len_four _ (hseg 20 4 (by omega)).1 (hseg 20 4 (by omega)).2)
      (beCombine_lt_of_len_four _ (hseg 24 4 (by omega)).1 (hseg 24 4 (by omega)).2)
      (hseg 28 16 (by omega)).1
      (hseg 44 64 (by omega)).1
      (hseg 108 128 (by omega)).1
      hwfo

set_option maxRecDepth 20000 in
/-- Witness for C6 at a concrete 246 byte frame. -/
theorem codec_roundtrip_witness :
    parse (toBytes samplePacket) = parse sampleFrame ∧
    ValidBytes sampleFrame ∧
    parse sampleFrame = some (Except.ok samplePacket) :=
  ⟨codec_roundtrip sampleFrame samplePacket (by decide) (by decide),
   by decide, by decide⟩

/-- C7. Parser error contract: parse errs exactly on frames shorter than
236 bytes; longer frames always succeed, with an empty option list when
the cookie is absent; and an option whose declared length runs past the
end of the input terminates option parsing with the options collected so
far. -/
theorem parse_error_contract :
    (∀ data : List Nat,
      (∃ e, parse data = some (Except.error e)) ↔ data.length < 236) ∧
    (∀ data : List Nat, 236 ≤ data.length →
      ∃ pk, parse data = some (Except.ok pk) ∧
        ((data.drop 236).take 4 ≠ magicCookie → pk.options = [])) ∧
    (∀ (opts : List DhcpOption) (c lb : Nat) (tail : List Nat),
      WFOpts opts → 1 ≤ c → c ≤ 254 → tail.length < lb →
      parseOptions (serializeOptions opts ++ c :: lb :: tail) = opts) := by
  refine ⟨?_, ?_, ?_⟩
  · intro data
    constructor
    · rintro ⟨e, he⟩
      by_contra hge
      push_neg at hge
      rw [parse_eq_of_le data hge] at he
      simp at he
    · intro hlt
      refine ⟨"DHCP packet too short", ?_⟩
      simp [parse, hlt]
  · intro data hge
    exact ⟨_, parse_eq_of_le data hge, fun hne => if_neg (fun hc => hne hc.2)⟩
  · intro opts c lb tail hwf hc1 hc2 hlt
    unfold parseOptions
    rw [parseOptionsGo_ser opts _ _ hwf (by
      have := length_serializeOptions_ge opts
      simp only [List.length_append]
      omega)]
    rw [parseOptionsGo_truncated _ c lb tail hc1 hc2 hlt]
    simp

set_option maxRecDepth 20000 in
/-- Witness for C7 at concrete inputs: a 100 byte frame errs, a bare 236
byte frame parses with no options, and a truncated trailing option is
dropped. -/
theorem parse_error_contract_witness :
    (∃ e, parse (List.replicate 100 0) = some (Except.error e)) ∧
    (∃ pk, parse (List.replicate 236 0) = some (Except.ok pk) ∧
      (((List.replicate 236 0).drop 236).take 4 ≠ magicCookie →
        pk.options = [])) ∧
    parseOptions (serializeOptions [⟨53, [3]⟩] ++ 50 :: 9 :: [1, 2]) =
      [⟨53, [3]⟩] :=
  ⟨(parse_error_contract.1 (List.replicate 100 0)).mpr (by decide),
   parse_error_contract.2.1 (List.replicate 236 0) (by decide),
   parse_error_contract.2.2 [⟨53, [3]⟩] 50 9 [1, 2] (by decide) (by decide)
     (by decide) (by decide)⟩

set_option maxRecDepth 20000 in
/-- C2 evidence. DECLINE handling flips the matching lease to released,
never to declined, and the declined ip is returned by the allocator to
another MAC 60 seconds later, inside the 5 minute cooldown window the
specification requires. -/
theorem decline_releases_without_cooldown :
    (∃ l ∈ storeDeclined.leases,
      l.mac = macOne ∧ l.ip = 3232235620 ∧ l.state = LeaseState.released) ∧
    (∀ l ∈ storeDeclined.leases, l.state ≠ LeaseState.declined) ∧
    findAvailableIp [sampleSubnet] storeDeclined 60 1 macTwo =
      some (some 3232235620) := by
  decide

/-- C8 evidence. The DHCP to DNS pipeline computes the FQDN and returns
Ok but leaves the zone database untouched: no A record, no PTR record, no
serial change (SimpleZoneManager::add_dynamic_record is a stub). -/
theorem dns_update_writes_nothing (db : ZoneDb) (hostname domain : String)
    (ip ttl : Nat) (hne : hostname ≠ "") :
    addDhcpRecord db hostname ip domain ttl = Except.ok db := by
  unfold addDhcpRecord addDynamicRecord
  rw [if_neg hne]

/-- Witness for C8 on the scenario of the specification: hostname
printer, domain lan, ip 192.168.10.100. -/
theorem dns_update_writes_nothing_witness :
    addDhcpRecord sampleZoneDb "printer" 3232238180 "lan" 300 =
      Except.ok sampleZoneDb :=
  dns_update_writes_nothing sampleZoneDb "printer" "lan" 3232238180 300
    (by decide)

/-- C9 counterexample: a reply to a relayed packet (giaddr nonzero) whose
broadcast flag is set goes to 255.255.255.255:68, not to giaddr:67. -/
theorem broadcast_flag_overrides_relay :
    (3232235521 : Nat) ≠ 0 ∧
    sendReplyDest 3232235521 true = (4294967295, 68) ∧
    ((4294967295 : Nat), (68 : Nat)) ≠ ((3232235521 : Nat), (67 : Nat)) := by
  decide

/-- The ascending scan is exhaustive and minimal: a hit is free and every
smaller address in the window was skipped for a reason; a miss means no
address in the window is free. -/
theorem scanFrom_spec (sub : Subnet) (st : Store) (now : Nat) :
    ∀ (fuel start : Nat),
    (∀ r, scanFrom sub st now start fuel = some r →
      start ≤ r ∧ r < start + fuel ∧ r ≠ sub.netAddr ∧
      r ≠ sub.broadcastAddr ∧ isIpInUse st now sub.id r = false ∧
      ∀ j, start ≤ j → j < r →
        j = sub.netAddr ∨ j = sub.broadcastAddr ∨
        isIpInUse st now sub.id j = true) ∧
    (scanFrom sub st now start fuel = none →
      ∀ j, start ≤ j → j < start + fuel →
        j = sub.netAddr ∨ j = sub.broadcastAddr ∨
        isIpInUse st now sub.id j = true) := by
  intro fuel
  induction fuel with
  | zero =>
    intro start
    constructor
    · intro r hr
      simp [scanFrom] at hr
    · intro _ j h1 h2
      omega
  | succ f ih =>
    intro start
    by_cases hskip : start = sub.netAddr ∨ start = sub.broadcastAddr
    · have heq : scanFrom sub st now start (f + 1) =
          scanFrom sub st now (start + 1) f := by
        simp [scanFrom, hskip]
      constructor
      · intro r hr
        rw [heq] at hr
        obtain ⟨h1, h2, h3, h4, h5, h6⟩ := (ih (start + 1)).1 r hr
        refine ⟨by omega, by omega, h3, h4, h5, ?_⟩
        intro j hj1 hj2
        by_cases hj : j = start
        · subst hj
          rcases hskip with hs | hs
          · exact Or.inl hs
          · exact Or.inr (Or.inl hs)
        · exact h6 j (by omega) hj2
      · intro hr j hj1 hj2
        rw [heq] at hr
        by_cases hj : j = start
        · subst hj
          rcases hskip with hs | hs
          · exact Or.inl hs
          · exact Or.inr (Or.inl hs)
        · exact (ih (start + 1)).2 hr j (by omega) (by omega)
    · push_neg at hskip
      by_cases huse : isIpInUse st now sub.id start = true
      · have heq : scanFrom sub st now start (f + 1) =
            scanFrom sub st now (start + 1) f := by
          simp [scanFrom, hskip.1, hskip.2, huse]
        constructor
        · intro r hr
          rw [heq] at hr
          obtain ⟨h1, h2, h3, h4, h5, h6⟩ := (ih (start + 1)).1 r hr
          refine ⟨by omega, by omega, h3, h4, h5, ?_⟩
          intro j hj1 hj2
          by_cases hj : j = start
          · subst hj
            exact Or.inr (Or.inr huse)
          · exact h6 j (by omega) hj2
        · intro hr j hj1 hj2
          rw [heq] at hr
          by_cases hj : j = start
          · subst hj
            exact Or.inr (Or.inr huse)
          · exact (ih (start + 1)).2 hr j (by omega) (by omega)
      · have heq : scanFrom sub st now start (f + 1) = some start := by
          simp [scanFrom, hskip.1, hskip.2, huse]
        constructor
        · intro r hr
          rw [heq] at hr
          obtain rfl : start = r := by injection hr
          refine ⟨le_refl _, by omega, hskip.1, hskip.2, ?_, ?_⟩
          · simpa using huse
          · intro j hj1 hj2
            omega
        · intro hr
          rw [heq] at hr
          cases hr

/-- C3. Deterministic first-free scan with containment: with no
reservation and no active lease for the MAC, a returned ip is the
numerically smallest address of [start_ip, end_ip] that is neither the
network nor the broadcast address and is not in use; when no such address
exists the allocator returns none (exhausted). -/
theorem allocator_first_free (subnets : List Subnet) (st : Store)
    (now sid : Nat) (mac : List Nat) (sub : Subnet)
    (hsub : findSubnetById subnets sid = some sub)
    (hres : getReservation st sid mac = none)
    (hlease : getActiveLeaseByMac st now mac = none) :
    (∀ ip, findAvailableIp subnets st now sid mac = some (some ip) →
      sub.start_ip ≤ ip ∧ ip ≤ sub.end_ip ∧ ip ≠ sub.netAddr ∧
      ip ≠ sub.broadcastAddr ∧ isIpInUse st now sub.id ip = false ∧
      ∀ j, sub.start_ip ≤ j → j < ip →
        j = sub.netAddr ∨ j = sub.broadcastAddr ∨
        isIpInUse st now sub.id j = true) ∧
    (findAvailableIp subnets st now sid mac = some none →
      ∀ j, sub.start_ip ≤ j → j ≤ sub.end_ip →
        j = sub.netAddr ∨ j = sub.broadcastAddr ∨
        isIpInUse st now sub.id j = true) := by
  have hfa : findAvailableIp subnets st now sid mac =
      some (scanFree sub st now) := by
    simp [findAvailableIp, hsub, hres, hlease]
  constructor
  · intro ip hip
    rw [hfa] at hip
    have hscan : scanFree sub st now = some ip := by
      injection hip
    unfold scanFree at hscan
    obtain ⟨h1, h2, h3, h4, h5, h6⟩ :=
      (scanFrom_spec sub st now (sub.end_ip + 1 - sub.start_ip) sub.start_ip).1
        ip hscan
    exact ⟨h1, by omega, h3, h4, h5, h6⟩
  · intro hip j hj1 hj2
    rw [hfa] at hip
    have hscan : scanFree sub st now = none := by
      injection hip
    unfold scanFree at hscan
    exact (scanFrom_spec sub st now (sub.end_ip + 1 - sub.start_ip)
      sub.start_ip).2 hscan j hj1 (by omega)

/-- Witness for C3: on the empty store the allocator hands out the lowest
pool address of the sample subnet, and it is free and inside the range. -/
theorem allocator_first_free_witness :
    sampleSubnet.start_ip ≤ 3232235620 ∧ 3232235620 ≤ sampleSubnet.end_ip ∧
    3232235620 ≠ sampleSubnet.netAddr ∧
    3232235620 ≠ sampleSubnet.broadcastAddr ∧
    isIpInUse Store.empty 0 sampleSubnet.id 3232235620 = false :=
  have h := (allocator_first_free [sampleSubnet] Store.empty 0 1 macOne
    sampleSubnet (by decide) (by decide) (by decide)).1 3232235620 (by decide)
  ⟨h.1, h.2.1, h.2.2.1, h.2.2.2.1, h.2.2.2.2.1⟩

/-- The maximum-lease_end fold of get_active_lease_by_mac only returns an
element of the list or the accumulator. -/
theorem pickMax_mem :
    ∀ (ls : List Lease) (acc : Option Lease) (r : Lease),
    ls.foldl (fun acc l =>
      match acc with
      | none => some l
      | some b => if b.lease_end < l.lease_end then some l else some b)
        acc = some r →
    r ∈ ls ∨ acc = some r := by
  intro ls
  induction ls with
  | nil =>
    intro acc r h
    exact Or.inr h
  | cons x xs ih =>
    intro acc r h
    simp only [List.foldl_cons] at h
    cases acc with
    | none =>
      dsimp only at h
      rcases ih (some x) r h with hmem | hacc
      · exact Or.inl (List.mem_cons_of_mem x hmem)
      · obtain rfl : x = r := by injection hacc
        exact Or.inl (List.mem_cons_self x xs)
    | some b =>
      dsimp only at h
      by_cases hlt : b.lease_end < x.lease_end
      · rw [if_pos hlt] at h
        rcases ih (some x) r h with hmem | hacc
        · exact Or.inl (List.mem_cons_of_mem x hmem)
        · obtain rfl : x = r := by injection hacc
          exact Or.inl (List.mem_cons_self x xs)
      · rw [if_neg hlt] at h
        rcases ih (some b) r h with hmem | hacc
        · exact Or.inl (List.mem_cons_of_mem x hmem)
        · exact Or.inr hacc

/-- A hit of get_active_lease_by_mac is a stored active unexpired lease of
that MAC. -/
theorem getActiveLeaseByMac_mem (s : Store) (now : Nat) (mac : List Nat)
    (l : Lease) (h : getActiveLeaseByMac s now mac = some l) :
    l ∈ s.leases ∧ l.mac = mac ∧ l.state = LeaseState.active ∧
      now < l.lease_end := by
  unfold getActiveLeaseByMac at h
  rcases pickMax_mem _ none l h with hmem | habs
  · have hp := List.of_mem_filter hmem
    simp only [decide_eq_true_eq] at hp
    exact ⟨List.mem_of_mem_filter hmem, hp.1, hp.2.1, hp.2.2⟩
  · cases habs

/-- C4 amended. Reservation honor: with the (subnet_id, mac) key unique,
a reserved MAC is allocated exactly its reserved ip; any other MAC with no
reservation in the subnet and no currently active lease on the reserved ip
never receives it. -/
theorem reservation_honor (subnets : List Subnet) (st : Store)
    (now sid : Nat) (mac : List Nat) (sub : Subnet) (res : Reservation)
    (hsub : findSubnetById subnets sid = some sub)
    (hkey : ∀ r1 ∈ st.reservations, ∀ r2 ∈ st.reservations,
      r1.subnet_id = r2.subnet_id → r1.mac = r2.mac → r1.ip = r2.ip)
    (hres : res ∈ st.reservations) (hsid : res.subnet_id = sid)
    (hmac : res.mac = mac) :
    findAvailableIp subnets st now sid mac = some (some res.ip) ∧
    ∀ mac2, mac2 ≠ mac → getReservation st sid mac2 = none →
      (∀ l ∈ st.leases, l.mac = mac2 → l.state = LeaseState.active →
        now < l.lease_end → l.ip ≠ res.ip) →
      findAvailableIp subnets st now sid mac2 ≠ some (some res.ip) := by
  have hid : sub.id = sid := by
    have := List.find?_some hsub
    simpa using this
  constructor
  · cases hfind : getReservation st sid mac with
    | none =>
      exfalso
      rw [getReservation, List.find?_eq_none] at hfind
      exact hfind res hres (by simp [hsid, hmac])
    | some r2 =>
      have hp := List.find?_some hfind
      simp only [decide_eq_true_eq] at hp
      have hmem : r2 ∈ st.reservations := List.mem_of_find?_eq_some hfind
      have hip : res.ip = r2.ip :=
        hkey res hres r2 hmem (by rw [hsid, hp.1]) (by rw [hmac, hp.2])
      simp [findAvailableIp, hsub, hfind, hip]
  · intro mac2 hne hres2 hnolease hcontra
    rw [findAvailableIp, hsub, hres2] at hcontra
    dsimp only at hcontra
    have hresv_count : 0 < countReservations st sid res.ip := by
      rw [countReservations]
      have hmemf : res ∈ st.reservations.filter (fun r =>
          decide (r.subnet_id = sid ∧ r.ip = res.ip)) :=
        List.mem_filter.mpr ⟨hres, by simp [hsid]⟩
      exact List.length_pos.mpr (List.ne_nil_of_mem hmemf)
    have huse : isIpInUse st now sid res.ip = true := by
      simp [isIpInUse]
      omega
    cases hl : getActiveLeaseByMac st now mac2 with
    | some l =>
      rw [hl] at hcontra
      by_cases hsame : l.subnet_id = sid
      · simp only [hsame, if_pos rfl, Option.some.injEq] at hcontra
        obtain ⟨hm1, hm2, hm3, hm4⟩ := getActiveLeaseByMac_mem st now mac2 l hl
        exact hnolease l hm1 hm2 hm3 hm4 (by
          injection hcontra with hh
          injection hh with hh2)
      · simp only [if_neg hsame, Option.some.injEq] at hcontra
        have hscan : scanFree sub st now = some res.ip := hcontra
        have hfree := ((scanFrom_spec sub st now _ _).1 res.ip hscan).2.2.2.2.1
        rw [hid] at hfree
        rw [huse] at hfree
        cases hfree
    | none =>
      rw [hl] at hcontra
      simp only [Option.some.injEq] at hcontra
      have hscan : scanFree sub st now = some res.ip := hcontra
      have hfree := ((scanFrom_spec sub st now _ _).1 res.ip hscan).2.2.2.2.1
      rw [hid] at hfree
      rw [huse] at hfree
      cases hfree

set_option maxRecDepth 20000 in
/-- C4 counterexample: macTwo has no reservation, yet the allocator hands
it the ip reserved for macOne, because macTwo already holds an active
lease on that ip. -/
theorem reserved_ip_leased_to_other_mac :
    (⟨1, macOne, 3232235620⟩ : Reservation) ∈
      storeReservedConflict.reservations ∧
    getReservation storeReservedConflict 1 macTwo = none ∧
    macTwo ≠ macOne ∧
    findAvailableIp [sampleSubnet] storeReservedConflict 0 1 macTwo =
      some (some 3232235620) := by
  decide

set_option maxRecDepth 20000 in
/-- Witness for C4 on a store holding only a reservation: the reserved MAC
gets its ip, a stranger MAC does not. -/
theorem reservation_honor_witness :
    findAvailableIp [sampleSubnet] storeReservedOnly 0 1 macOne =
      some (some 3232235625) ∧
    findAvailableIp [sampleSubnet] storeReservedOnly 0 1 macTwo ≠
      some (some 3232235625) :=
  have h := reservation_honor [sampleSubnet] storeReservedOnly 0 1 macOne
    sampleSubnet ⟨1, macOne, 3232235625⟩ (by decide) (by decide) (by decide)
    (by decide) (by decide)
  ⟨h.1, h.2 macTwo (by decide) (by decide) (by decide)⟩

theorem macsUnique_map (s : List Lease) (f : Lease → Lease)
    (hf : ∀ l, (f l).mac = l.mac)
    (h : s.Pairwise (fun a b => a.mac ≠ b.mac)) :
    (s.map f).Pairwise (fun a b => a.mac ≠ b.mac) := by
  rw [List.pairwise_map]
  exact h.imp (fun hab => by simpa [hf] using hab)

theorem macsUnique_insert (st : Store) (sid : Nat) (mac : List Nat)
    (ip : Nat) (hn : Option String) (ls le : Nat) (h : MacsUnique st) :
    MacsUnique (insertOrUpdateLease st sid mac ip hn ls le).1 := by
  unfold MacsUnique at *
  unfold insertOrUpdateLease
  cases hf : st.leases.find? (fun l => decide (l.mac = mac)) with
  | some old =>
    dsimp only
    exact macsUnique_map _ _
      (fun l => by by_cases hl : l.mac = mac <;> simp [hl]) h
  | none =>
    dsimp only
    rw [List.pairwise_append]
    refine ⟨h, by simp, ?_⟩
    intro a ha b hb
    have hb' : b = ⟨st.nextId, sid, mac, ip, hn, ls, le, LeaseState.active⟩ := by
      simpa using hb
    have hna := List.find?_eq_none.mp hf a ha
    simp only [decide_eq_true_eq] at hna
    rw [hb']
    exact hna

theorem macsUnique_updateLeaseEnd (st : Store) (lid newEnd : Nat)
    (h : MacsUnique st) : MacsUnique (updateLeaseEnd st lid newEnd).1 := by
  unfold MacsUnique at *
  unfold updateLeaseEnd
  exact macsUnique_map _ _
    (fun l => by by_cases hl : l.id = lid <;> simp [hl]) h

theorem macsUnique_release (st : Store) (mac : List Nat) (ip : Nat)
    (h : MacsUnique st) : MacsUnique (releaseLeaseQ st mac ip).1 := by
  unfold MacsUnique at *
  unfold releaseLeaseQ
  exact macsUnique_map _ _
    (fun l => by
      by_cases hl : l.mac = mac ∧ l.ip = ip ∧ l.state = LeaseState.active <;>
        simp [hl]) h

theorem macsUnique_expire (st : Store) (now : Nat) (h : MacsUnique st) :
    MacsUnique (expireOldLeases st now).1 := by
  unfold MacsUnique at *
  unfold expireOldLeases
  exact macsUnique_map _ _
    (fun l => by
      by_cases hl : l.state = LeaseState.active ∧ l.lease_end < now <;>
        simp [hl]) h

theorem macsUnique_renew (subnets : List Subnet) (st : Store) (now : Nat)
    (mac : List Nat) (ip : Nat) (h : MacsUnique st) :
    ∀ r, renewLease subnets st now mac ip = Except.ok r → MacsUnique r.1 := by
  intro r hr
  unfold renewLease at hr
  cases hfind : findActiveLeaseByMacAndIp st mac ip with
  | none =>
    rw [hfind] at hr
    injection hr with h1
    rw [← h1]
    exact h
  | some l =>
    rw [hfind] at hr
    dsimp only at hr
    cases hsub : findSubnetById subnets l.subnet_id with
    | none =>
      rw [hsub] at hr
      exact Except.noConfusion hr
    | some sub =>
      rw [hsub] at hr
      dsimp only at hr
      cases hupd : (updateLeaseEnd st l.id (now + sub.lease_duration)).2 with
      | none =>
        rw [hupd] at hr
        exact Except.noConfusion hr
      | some rl =>
        rw [hupd] at hr
        injection hr with h1
        rw [← h1]
        exact macsUnique_updateLeaseEnd st l.id (now + sub.lease_duration) h

theorem macsUnique_create (cfg : Config) (subnets : List Subnet)
    (st : Store) (now sid : Nat) (mac : List Nat) (ip : Nat)
    (hn : Option String) (h : MacsUnique st) :
    ∀ pr, createLease cfg subnets st now sid mac ip hn = some pr →
      MacsUnique pr.1 := by
  intro pr hpr
  unfold createLease at hpr
  cases hsub : findSubnetById subnets sid with
  | none =>
    rw [hsub] at hpr
    exact Option.noConfusion hpr
  | some sub =>
    rw [hsub] at hpr
    dsimp only at hpr
    injection hpr with h1
    rw [← h1]
    exact macsUnique_insert st sid mac ip _ now (now + sub.lease_duration) h

theorem macsUnique_handleRequest (cfg : Config) (subnets : List Subnet)
    (st : Store) (now : Nat) (pk : DhcpPacket) (h : MacsUnique st) :
    MacsUnique (handleRequest cfg subnets st now pk).1 := by
  unfold handleRequest
  cases requestedOf pk with
  | none => exact h
  | some t =>
    dsimp only
    cases hre : renewLease subnets st now (getClientMac pk) t with
    | error e => exact h
    | ok pr =>
      obtain ⟨st1, olease⟩ := pr
      cases olease with
      | some lease =>
        dsimp only
        exact macsUnique_renew subnets st now (getClientMac pk) t h
          (st1, some lease) hre
      | none =>
        dsimp only
        cases findSubnetForClient subnets t (some pk.giaddr) with
        | none => exact h
        | some sub =>
          dsimp only
          cases findAvailableIp subnets st now sub.id (getClientMac pk) with
          | none => exact h
          | some avail =>
            dsimp only
            by_cases hav : avail = some t
            · rw [if_pos hav]
              cases hcl : createLease cfg subnets st now sub.id
                  (getClientMac pk) t (getHostname pk) with
              | none => exact h
              | some pr2 =>
                dsimp only
                exact macsUnique_create cfg subnets st now sub.id
                  (getClientMac pk) t (getHostname pk) h pr2 hcl
            · rw [if_neg hav]
              exact h

theorem macsUnique_applyOp (cfg : Config) (subnets : List Subnet)
    (st : Store) (now : Nat) (op : Op) (h : MacsUnique st) :
    MacsUnique (applyOp cfg subnets st now op) := by
  cases op with
  | discover pk srcIp =>
    have hst : (handleDiscover cfg subnets st now pk srcIp).1 = st := by
      unfold handleDiscover
      cases findSubnetForClient subnets srcIp (some pk.giaddr) with
      | none => rfl
      | some sub =>
        dsimp only
        cases findAvailableIp subnets st now sub.id (getClientMac pk) with
        | none => rfl
        | some avail => cases avail <;> rfl
    show MacsUnique (handleDiscover cfg subnets st now pk srcIp).1
    rw [hst]
    exact h
  | request pk => exact macsUnique_handleRequest cfg subnets st now pk h
  | release pk =>
    show MacsUnique (handleRelease st pk).1
    unfold handleRelease
    dsimp only
    split
    · exact h
    · exact macsUnique_release _ _ _ h
  | decline pk =>
    show MacsUnique (handleDecline st pk).1
    unfold handleDecline
    dsimp only
    split
    · exact h
    · exact macsUnique_release _ _ _ h
  | inform pk => exact h
  | createL sid mac ip hostname =>
    show MacsUnique (match createLease cfg subnets st now sid mac ip hostname
      with | some (st1, _) => st1 | none => st)
    cases hcl : createLease cfg subnets st now sid mac ip hostname with
    | none => exact h
    | some pr =>
      obtain ⟨st1, l⟩ := pr
      exact macsUnique_create cfg subnets st now sid mac ip hostname h
        (st1, l) hcl
  | renewL mac ip =>
    show MacsUnique (match renewLease subnets st now mac ip with
      | Except.ok (st1, _) => st1 | Except.error _ => st)
    cases hre : renewLease subnets st now mac ip with
    | error e => exact h
    | ok pr =>
      obtain ⟨st1, l⟩ := pr
      exact macsUnique_renew subnets st now mac ip h (st1, l) hre
  | releaseL mac ip => exact macsUnique_release _ _ _ h
  | expire => exact macsUnique_expire _ _ h

theorem macsUnique_run (cfg : Config) (subnets : List Subnet)
    (tr : List (Nat × Op)) : MacsUnique (run cfg subnets tr) := by
  have hstep : ∀ (rest : List (Nat × Op)) (st : Store), MacsUnique st →
      MacsUnique (rest.foldl (fun st p => applyOp cfg subnets st p.1 p.2) st) := by
    intro rest
    induction rest with
    | nil =>
      intro st h
      exact h
    | cons p tail ih =>
      intro st h
      exact ih _ (macsUnique_applyOp cfg subnets st p.1 p.2 h)
  exact hstep tr Store.empty List.Pairwise.nil

/-- C1 amended. From the empty lease table, any sequence of handler and
manager operations leaves at most one lease in state active per MAC (in
fact at most one row per MAC, by the mac_address unique constraint the
upsert is keyed on). -/
theorem lease_table_unique_per_mac (cfg : Config) (subnets : List Subnet)
    (tr : List (Nat × Op)) (mac : List Nat) :
    activeCountForMac (run cfg subnets tr) mac ≤ 1 := by
  have hm := macsUnique_run cfg subnets tr
  unfold activeCountForMac
  cases hfl : (run cfg subnets tr).leases.filter (fun l =>
      decide (l.mac = mac ∧ l.state = LeaseState.active)) with
  | nil => simp
  | cons x tail =>
    cases tail with
    | nil => simp
    | cons y rest =>
      exfalso
      have hp : (x :: y :: rest).Pairwise (fun a b => a.mac ≠ b.mac) := by
        rw [← hfl]
        exact hm.sublist (List.filter_sublist _)
      have hxy : x.mac ≠ y.mac := (List.pairwise_cons.mp hp).1 y (by simp)
      have hx : x ∈ (run cfg subnets tr).leases.filter (fun l =>
          decide (l.mac = mac ∧ l.state = LeaseState.active)) := by
        rw [hfl]
        simp
      have hy : y ∈ (run cfg subnets tr).leases.filter (fun l =>
          decide (l.mac = mac ∧ l.state = LeaseState.active)) := by
        rw [hfl]
        simp
      have hx' := List.of_mem_filter hx
      have hy' := List.of_mem_filter hy
      simp only [decide_eq_true_eq] at hx' hy'
      exact hxy (by rw [hx'.1, hy'.1])

/-- C9 amended. Every reply any handler emits is addressed by the single
rule of send_reply: broadcast 255.255.255.255:68 when the request set the
broadcast flag or its giaddr is zero, else unicast giaddr:67; replies are
never addressed to ciaddr:68. -/
theorem reply_destinations (cfg : Config) (subnets : List Subnet)
    (st : Store) (now : Nat) (pk : DhcpPacket) (srcIp : Nat) :
    (∀ sent, (handleDiscover cfg subnets st now pk srcIp).2 =
        HRes.done (some sent) →
      sent.dest = if isBroadcast pk || pk.giaddr == 0
        then ((4294967295 : Nat), (68 : Nat)) else (pk.giaddr, 67)) ∧
    (∀ sent, (handleRequest cfg subnets st now pk).2 =
        HRes.done (some sent) →
      sent.dest = if isBroadcast pk || pk.giaddr == 0
        then ((4294967295 : Nat), (68 : Nat)) else (pk.giaddr, 67)) ∧
    (∀ sent, (handleInform cfg subnets st pk).2 = HRes.done (some sent) →
      sent.dest = if isBroadcast pk || pk.giaddr == 0
        then ((4294967295 : Nat), (68 : Nat)) else (pk.giaddr, 67)) := by
  refine ⟨?_, ?_, ?_⟩
  · intro sent hs
    unfold handleDiscover at hs
    cases hsc : findSubnetForClient subnets srcIp (some pk.giaddr) with
    | none =>
      rw [hsc] at hs
      simp at hs
    | some sub =>
      rw [hsc] at hs
      dsimp only at hs
      cases hfa : findAvailableIp subnets st now sub.id (getClientMac pk) with
      | none =>
        rw [hfa] at hs
        simp at hs
      | some avail =>
        rw [hfa] at hs
        cases avail with
        | none => simp at hs
        | some ip =>
          dsimp only at hs
          injection hs with h1
          injection h1 with h2
          rw [← h2]
          rfl
  · intro sent hs
    unfold handleRequest at hs
    cases hreq : requestedOf pk with
    | none =>
      rw [hreq] at hs
      injection hs with h1
      injection h1 with h2
      rw [← h2]
      rfl
    | some t =>
      rw [hreq] at hs
      dsimp only at hs
      cases hre : renewLease subnets st now (getClientMac pk) t with
      | error e =>
        rw [hre] at hs
        simp at hs
      | ok pr =>
        rw [hre] at hs
        obtain ⟨st1, olease⟩ := pr
        cases olease with
        | some lease =>
          dsimp only at hs
          cases hsc : findSubnetForClient subnets t (some pk.giaddr) with
          | none =>
            rw [hsc] at hs
            dsimp only at hs
            injection hs with h1
            injection h1 with h2
            rw [← h2]
            rfl
          | some sub =>
            rw [hsc] at hs
            dsimp only at hs
            injection hs with h1
            injection h1 with h2
            rw [← h2]
            rfl
        | none =>
          dsimp only at hs
          cases hsc : findSubnetForClient subnets t (some pk.giaddr) with
          | none =>
            rw [hsc] at hs
            injection hs with h1
            injection h1 with h2
            rw [← h2]
            rfl
          | some sub =>
            rw [hsc] at hs
            dsimp only at hs
            cases hfa : findAvailableIp subnets st now sub.id
                (getClientMac pk) with
            | none =>
              rw [hfa] at hs
              simp at hs
            | some avail =>
              rw [hfa] at hs
              dsimp only at hs
              by_cases hav : avail = some t
              · rw [if_pos hav] at hs
                cases hcl : createLease cfg subnets st now sub.id
                    (getClientMac pk) t (getHostname pk) with
                | none =>
                  rw [hcl] at hs
                  simp at hs
                | some pr2 =>
                  rw [hcl] at hs
                  obtain ⟨st2, lease2⟩ := pr2
                  dsimp only at hs
                  injection hs with h1
                  injection h1 with h2
                  rw [← h2]
                  rfl
              · rw [if_neg hav] at hs
                injection hs with h1
                injection h1 with h2
                rw [← h2]
                rfl
  · intro sent hs
    unfold handleInform at hs
    cases hsc : findSubnetForClient subnets pk.ciaddr (some pk.giaddr) with
    | none =>
      rw [hsc] at hs
      dsimp only at hs
      injection hs with h1
      injection h1 with h2
      rw [← h2]
      rfl
    | some sub =>
      rw [hsc] at hs
      dsimp only at hs
      injection hs with h1
      injection h1 with h2
      rw [← h2]
      rfl

set_option maxRecDepth 20000 in
/-- Witness for the amended C9: the ACK for a fresh relayed REQUEST with
the broadcast flag clear is unicast to the relay at giaddr:67. -/
theorem reply_destinations_witness :
    ackSentSample.dest = ((3232235521 : Nat), (67 : Nat)) := by
  have h := (reply_destinations sampleConfig [sampleSubnet] Store.empty 0
    (requestPacket macOne 3232235620) 0).2.1 ackSentSample (by decide)
  rw [h]
  decide

/-- A hit of find_active_lease_by_mac_and_ip is a stored active row of
that (mac, ip); its lease_end is not inspected. -/
theorem findActiveLeaseByMacAndIp_mem (s : Store) (mac : List Nat)
    (ip : Nat) (l : Lease) (h : findActiveLeaseByMacAndIp s mac ip = some l) :
    l ∈ s.leases ∧ l.mac = mac ∧ l.ip = ip ∧ l.state = LeaseState.active := by
  have hp := List.find?_some h
  simp only [decide_eq_true_eq] at hp
  exact ⟨List.mem_of_find?_eq_some h, hp.1, hp.2.1, hp.2.2⟩

theorem renewLease_none (subnets : List Subnet) (st : Store) (now : Nat)
    (mac : List Nat) (t : Nat)
    (hfind : findActiveLeaseByMacAndIp st mac t = none) :
    renewLease subnets st now mac t = Except.ok (st, none) := by
  unfold renewLease
  rw [hfind]

/-- Characterization of a successful renewal: the matched row has its
lease_end replaced by now plus the lease duration of its subnet. The
primary-key hypothesis pins down which row update_lease_end touches. -/
theorem renewLease_some (subnets : List Subnet) (st : Store) (now : Nat)
    (mac : List Nat) (t : Nat) (l : Lease) (sub : Subnet)
    (hfind : findActiveLeaseByMacAndIp st mac t = some l)
    (hsub : findSubnetById subnets l.subnet_id = some sub)
    (hpk : ∀ l1 ∈ st.leases, ∀ l2 ∈ st.leases, l1.id = l2.id → l1 = l2) :
    renewLease subnets st now mac t =
      Except.ok ((updateLeaseEnd st l.id (now + sub.lease_duration)).1,
        some { l with lease_end := now + sub.lease_duration }) := by
  have hlmem := (findActiveLeaseByMacAndIp_mem st mac t l hfind).1
  have hfid : st.leases.find? (fun x => decide (x.id = l.id)) = some l := by
    cases hf : st.leases.find? (fun x => decide (x.id = l.id)) with
    | none =>
      exfalso
      have := List.find?_eq_none.mp hf l hlmem
      simp at this
    | some l2 =>
      have hp := List.find?_some hf
      simp only [decide_eq_true_eq] at hp
      have hm2 := List.mem_of_find?_eq_some hf
      rw [hpk l2 hm2 l hlmem hp]
  unfold renewLease
  rw [hfind]
  dsimp only
  rw [hsub]
  dsimp only
  rw [show (updateLeaseEnd st l.id (now + sub.lease_duration)).2 =
      some { l with lease_end := now + sub.lease_duration } from by
    unfold updateLeaseEnd
    dsimp only
    rw [hfid]
    rfl]

/-- The row returned by the upsert is active, carries the requested
binding, and is stored. -/
theorem insertOrUpdateLease_props (st : Store) (sid : Nat) (mac : List Nat)
    (ip : Nat) (hn : Option String) (ls le : Nat) :
    (insertOrUpdateLease st sid mac ip hn ls le).2.state = LeaseState.active ∧
    (insertOrUpdateLease st sid mac ip hn ls le).2.ip = ip ∧
    (insertOrUpdateLease st sid mac ip hn ls le).2.mac = mac ∧
    (insertOrUpdateLease st sid mac ip hn ls le).2 ∈
      (insertOrUpdateLease st sid mac ip hn ls le).1.leases := by
  unfold insertOrUpdateLease
  cases hf : st.leases.find? (fun l => decide (l.mac = mac)) with
  | some old =>
    have hp := List.find?_some hf
    simp only [decide_eq_true_eq] at hp
    have hm := List.mem_of_find?_eq_some hf
    refine ⟨rfl, rfl, hp, ?_⟩
    dsimp only
    refine List.mem_map.mpr ⟨old, hm, ?_⟩
    rw [if_pos hp]
  | none =>
    refine ⟨rfl, rfl, rfl, ?_⟩
    dsimp only
    simp

theorem findAvailableIp_isSome (subnets : List Subnet) (st : Store)
    (now sid : Nat) (mac : List Nat)
    (hsub : (findSubnetById subnets sid).isSome) :
    (findAvailableIp subnets st now sid mac).isSome := by
  obtain ⟨sub, hs⟩ := Option.isSome_iff_exists.mp hsub
  unfold findAvailableIp
  rw [hs]
  cases getReservation st sid mac with
  | some r => rfl
  | none =>
    dsimp only
    cases getActiveLeaseByMac st now mac with
    | none => rfl
    | some l =>
      dsimp only
      by_cases hl : l.subnet_id = sid <;> simp [hl]

/-- With pairwise distinct subnet ids, lookup by id inverts membership. -/
theorem findSubnetById_mem_nodup (subnets : List Subnet) (sub : Subnet)
    (hmem : sub ∈ subnets) (hids : (subnets.map Subnet.id).Nodup) :
    findSubnetById subnets sub.id = some sub := by
  induction subnets with
  | nil => cases hmem
  | cons s rest ih =>
    rcases List.mem_cons.mp hmem with rfl | hmem2
    · unfold findSubnetById
      simp [List.find?]
    · have hne : s.id ≠ sub.id := by
        intro he
        have : sub.id ∈ rest.map Subnet.id :=
          List.mem_map.mpr ⟨sub, hmem2, rfl⟩
        rw [← he] at this
        exact (List.nodup_cons.mp (by simpa using hids)).1 this
      unfold findSubnetById
      rw [List.find?]
      rw [show decide (s.id = sub.id) = false from by simp [hne]]
      exact ih hmem2 (List.Nodup.of_cons (by simpa using hids))

/-- REQUEST falls through to NAK when no renewal matches and the
allocator does not return exactly the target. -/
theorem handleRequest_nak (cfg : Config) (subnets : List Subnet)
    (st : Store) (now : Nat) (pk : DhcpPacket) (t : Nat)
    (hreq : requestedOf pk = some t)
    (hfind : findActiveLeaseByMacAndIp st (getClientMac pk) t = none)
    (hna : ∀ sub, findSubnetForClient subnets t (some pk.giaddr) = some sub →
      findAvailableIp subnets st now sub.id (getClientMac pk) ≠ some (some t))
    (hsome : ∀ sub, findSubnetForClient subnets t (some pk.giaddr) = some sub →
      (findAvailableIp subnets st now sub.id (getClientMac pk)).isSome) :
    handleRequest cfg subnets st now pk =
      (st, HRes.done (some (nakReply cfg pk))) := by
  unfold handleRequest
  rw [hreq]
  dsimp only
  rw [renewLease_none subnets st now (getClientMac pk) t hfind]
  dsimp only
  cases hsc : findSubnetForClient subnets t (some pk.giaddr) with
  | none => rfl
  | some sub =>
    dsimp only
    cases hfa : findAvailableIp subnets st now sub.id (getClientMac pk) with
    | none =>
      exfalso
      have hi := hsome sub hsc
      rw [hfa] at hi
      simp at hi
    | some avail =>
      dsimp only
      rw [if_neg (fun he => hna sub hsc (by rw [hfa, he]))]

set_option maxRecDepth 2000 in
/-- C5. REQUEST handling: with the subnet ids distinct, every stored
lease belonging to a loaded subnet, and lease ids unique, the handler (1)
NAKs when no target ip can be determined; (2) on an active (mac, t) match
extends that lease to now + lease_duration and ACKs t; (3) otherwise, when
the located subnet's allocator returns exactly t, upserts an active lease
on t and ACKs t; (4) in every other case NAKs with the store unchanged,
(5) in particular whenever t lies outside the located subnet's pool range
(reservations and active leases of the subnet being in range). -/
theorem handle_request_spec (cfg : Config) (subnets : List Subnet)
    (st : Store) (now : Nat) (pk : DhcpPacket)
    (hids : (subnets.map Subnet.id).Nodup)
    (hwfst : ∀ l ∈ st.leases, (findSubnetById subnets l.subnet_id).isSome)
    (hpk : ∀ l1 ∈ st.leases, ∀ l2 ∈ st.leases, l1.id = l2.id → l1 = l2) :
    (requestedOf pk = none →
      handleRequest cfg subnets st now pk =
        (st, HRes.done (some (nakReply cfg pk)))) ∧
    (∀ t l, requestedOf pk = some t →
      findActiveLeaseByMacAndIp st (getClientMac pk) t = some l →
      ∃ sub, findSubnetById subnets l.subnet_id = some sub ∧
        (handleRequest cfg subnets st now pk).1 =
          (updateLeaseEnd st l.id (now + sub.lease_duration)).1 ∧
        ∃ sent, (handleRequest cfg subnets st now pk).2 =
            HRes.done (some sent) ∧
          getMessageType sent.pkt = some 5 ∧ sent.pkt.yiaddr = t) ∧
    (∀ t sub, requestedOf pk = some t →
      findActiveLeaseByMacAndIp st (getClientMac pk) t = none →
      findSubnetForClient subnets t (some pk.giaddr) = some sub →
      findAvailableIp subnets st now sub.id (getClientMac pk) =
        some (some t) →
      ∃ pr, createLease cfg subnets st now sub.id (getClientMac pk) t
          (getHostname pk) = some pr ∧
        (handleRequest cfg subnets st now pk).1 = pr.1 ∧
        pr.2.state = LeaseState.active ∧ pr.2.ip = t ∧
        pr.2 ∈ pr.1.leases ∧
        ∃ sent, (handleRequest cfg subnets st now pk).2 =
            HRes.done (some sent) ∧
          getMessageType sent.pkt = some 5 ∧ sent.pkt.yiaddr = t) ∧
    (∀ t, requestedOf pk = some t →
      findActiveLeaseByMacAndIp st (getClientMac pk) t = none →
      (∀ sub, findSubnetForClient subnets t (some pk.giaddr) = some sub →
        findAvailableIp subnets st now sub.id (getClientMac pk) ≠
          some (some t)) →
      handleRequest cfg subnets st now pk =
        (st, HRes.done (some (nakReply cfg pk)))) ∧
    (∀ t sub, requestedOf pk = some t →
      findActiveLeaseByMacAndIp st (getClientMac pk) t = none →
      findSubnetForClient subnets t (some pk.giaddr) = some sub →
      (∀ r ∈ st.reservations, r.subnet_id = sub.id →
        sub.start_ip ≤ r.ip ∧ r.ip ≤ sub.end_ip) →
      (∀ l ∈ st.leases, l.subnet_id = sub.id →
        l.state = LeaseState.active → sub.start_ip ≤ l.ip ∧ l.ip ≤ sub.end_ip) →
      (t < sub.start_ip ∨ sub.end_ip < t) →
      handleRequest cfg subnets st now pk =
        (st, HRes.done (some (nakReply cfg pk)))) := by
  have hsomeAll : ∀ (t : Nat) (sub : Subnet),
      findSubnetForClient subnets t (some pk.giaddr) = some sub →
      (findAvailableIp subnets st now sub.id (getClientMac pk)).isSome := by
    intro t sub hsc
    apply findAvailableIp_isSome
    rw [findSubnetById_mem_nodup subnets sub (List.mem_of_find?_eq_some hsc)
      hids]
    rfl
  refine ⟨?_, ?_, ?_, ?_, ?_⟩
  · intro hreq
    unfold handleRequest
    rw [hreq]
  · intro t l hreq hfind
    obtain ⟨hlmem, hlmac, hlip, hlstate⟩ :=
      findActiveLeaseByMacAndIp_mem st (getClientMac pk) t l hfind
    obtain ⟨sub, hsub⟩ := Option.isSome_iff_exists.mp (hwfst l hlmem)
    have hrenew := renewLease_some subnets st now (getClientMac pk) t l sub
      hfind hsub hpk
    refine ⟨sub, hsub, ?_, ?_⟩
    · unfold handleRequest
      rw [hreq]
      dsimp only
      rw [hrenew]
    · unfold handleRequest
      rw [hreq]
      dsimp only
      rw [hrenew]
      dsimp only
      cases hsc : findSubnetForClient subnets t (some pk.giaddr) with
      | none =>
        refine ⟨_, rfl, ?_, ?_⟩
        · simp [getMessageType, getOpt, createReplyPacket, List.find?]
        · simp [createReplyPacket, hlip]
      | some sub2 =>
        dsimp only
        refine ⟨_, rfl, ?_, ?_⟩
        · simp [getMessageType, getOpt, createReplyPacket, List.find?]
        · simp [createReplyPacket, hlip]
  · intro t sub hreq hfind hsc hfa
    have hsub2 : findSubnetById subnets sub.id = some sub :=
      findSubnetById_mem_nodup subnets sub (List.mem_of_find?_eq_some hsc)
        hids
    have hcl : createLease cfg subnets st now sub.id (getClientMac pk) t
        (getHostname pk) = some (insertOrUpdateLease st sub.id
          (getClientMac pk) t
          (match getHostname pk with
           | some h => some h
           | none => generateHostname cfg.hostname_template t)
          now (now + sub.lease_duration)) := by
      unfold createLease
      rw [hsub2]
    obtain ⟨hp1, hp2, hp3, hp4⟩ := insertOrUpdateLease_props st sub.id
      (getClientMac pk) t
      (match getHostname pk with
       | some h => some h
       | none => generateHostname cfg.hostname_template t)
      now (now + sub.lease_duration)
    refine ⟨_, hcl, ?_, hp1, hp2, hp4, ?_⟩
    · unfold handleRequest
      rw [hreq]
      dsimp only
      rw [renewLease_none subnets st now (getClientMac pk) t hfind]
      dsimp only
      rw [hsc]
      dsimp only
      rw [hfa]
      dsimp only
      rw [if_pos rfl, hcl]
    · unfold handleRequest
      rw [hreq]
      dsimp only
      rw [renewLease_none subnets st now (getClientMac pk) t hfind]
      dsimp only
      rw [hsc]
      dsimp only
      rw [hfa]
      dsimp only
      rw [if_pos rfl, hcl]
      dsimp only
      refine ⟨_, rfl, ?_, ?_⟩
      · simp [getMessageType, getOpt, createReplyPacket, List.find?]
      · simp [createReplyPacket, hp2]
  · intro t hreq hfind hna
    exact handleRequest_nak cfg subnets st now pk t hreq hfind hna
      (fun sub hsc => hsomeAll t sub hsc)
  · intro t sub hreq hfind hsc hresR hleaseR hout
    refine handleRequest_nak cfg subnets st now pk t hreq hfind ?_
      (fun sub2 hsc2 => hsomeAll t sub2 hsc2)
    intro sub2 hsc2 hcontra
    obtain rfl : sub = sub2 := by
      rw [hsc] at hsc2
      injection hsc2
    have hsub2 : findSubnetById subnets sub.id = some sub :=
      findSubnetById_mem_nodup subnets sub (List.mem_of_find?_eq_some hsc)
        hids
    rw [findAvailableIp, hsub2] at hcontra
    dsimp only at hcontra
    cases hr : getReservation st sub.id (getClientMac pk) with
    | some r =>
      rw [hr] at hcontra
      have hp := List.find?_some hr
      simp only [decide_eq_true_eq] at hp
      have hm := List.mem_of_find?_eq_some hr
      have hrange := hresR r hm hp.1
      have : r.ip = t := by
        injection hcontra with hh
        injection hh
      omega
    | none =>
      rw [hr] at hcontra
      dsimp only at hcontra
      cases hl : getActiveLeaseByMac st now (getClientMac pk) with
      | some l =>
        rw [hl] at hcontra
        dsimp only at hcontra
        by_cases hsame : l.subnet_id = sub.id
        · rw [if_pos hsame] at hcontra
          dsimp only at hcontra
          obtain ⟨hm1, _, hm3, _⟩ :=
            getActiveLeaseByMac_mem st now (getClientMac pk) l hl
          have hrange := hleaseR l hm1 hsame hm3
          have : l.ip = t := by
            injection hcontra with hh
            injection hh
          omega
        · rw [if_neg hsame] at hcontra
          dsimp only at hcontra
          have hscan : scanFree sub st now = some t := by
            injection hcontra
          have hb := (scanFrom_spec sub st now _ _).1 t hscan
          omega
      | none =>
        rw [hl] at hcontra
        dsimp only at hcontra
        have hscan : scanFree sub st now = some t := by
          injection hcontra
        have hb := (scanFrom_spec sub st now _ _).1 t hscan
        omega

set_option maxRecDepth 20000 in
/-- Witness for C5: on the empty store a fresh relayed REQUEST for the
first pool address is ACKed with an active lease persisted. -/
theorem handle_request_spec_witness :
    ∃ pr, createLease sampleConfig [sampleSubnet] Store.empty 0
        sampleSubnet.id (getClientMac (requestPacket macOne 3232235620))
        3232235620 (getHostname (requestPacket macOne 3232235620)) =
        some pr ∧
      (handleRequest sampleConfig [sampleSubnet] Store.empty 0
        (requestPacket macOne 3232235620)).1 = pr.1 ∧
      pr.2.state = LeaseState.active ∧ pr.2.ip = 3232235620 ∧
      pr.2 ∈ pr.1.leases ∧
      ∃ sent, (handleRequest sampleConfig [sampleSubnet] Store.empty 0
          (requestPacket macOne 3232235620)).2 = HRes.done (some sent) ∧
        getMessageType sent.pkt = some 5 ∧ sent.pkt.yiaddr = 3232235620 :=
  (handle_request_spec sampleConfig [sampleSubnet] Store.empty 0
    (requestPacket macOne 3232235620) (by decide)
    (by intro l hl; cases hl) (by intro l1 hl1; cases hl1)).2.2.1
    3232235620 sampleSubnet (by decide) (by decide) (by decide) (by decide)

set_option maxRecDepth 20000 in
/-- C1 counterexample: after two REQUEST handlings from the empty table,
the second after the first lease timed out without an expiration tick,
the store holds two leases in state active on the same (subnet_id, ip). -/
theorem two_active_leases_same_subnet_ip :
    ((run sampleConfig [sampleSubnet] traceTwoActive).leases.filter
      (fun l => decide (l.subnet_id = 1 ∧ l.ip = 3232235620 ∧
        l.state = LeaseState.active))).length = 2 := by
  decide

end FlowDns
